import Mathlib

/-!
Verification of the reconciliation engine of the Updaterest repository
(`src/app.py`, a Streamlit upsert app for Google Sheets).

The shallow embedding below translates the dry-run reconciliation section
(app.py lines 223-305) together with the row builders of the apply section
(lines 332-342 and 347-366).  Conventions of the embedding:

* A cell of the uploaded dataframe (`df_new`) is `Option String`:
  `none` models a pandas missing value (NaN), `some s` models a scalar whose
  pandas string form is `s`.  Cells of the raw worksheet (`ws.get_all_values()`)
  are plain `String`, as gspread returns strings.
* Python `str.strip()` / pandas `.str.strip()` is modelled by `strip`, which
  drops whitespace from both ends of the character list.
* `df_new[key].astype(str)` turns NaN into the literal string "nan"
  (pandas behaviour), while the per-column coercion at line 290
  (`"" if pd.isna(val) else str(val).strip()`) turns missing into "".
  The source really does use these two different coercions.
* Dictionaries are modelled by functions built with last-write-wins updates
  (`existing_key_to_row`) or by last-occurrence-wins recursion (`headerMap`,
  matching the dict comprehension at line 247).
* The unguarded Python list assignment `updated_row[col_idx] = sval_new`
  (line 293) raises IndexError when `col_idx >= len(updated_row)`; this is
  modelled by the `RErr.indexError` branch of `applySync`.  Likewise the
  `st.error`/`st.stop` aborts and the pandas KeyError at line 235 are modelled
  as error values of `reconcile`.
* `df_to_insert = df_new[mask][cols_to_sync]` (line 267) raises KeyError when
  some sync column is missing from `df_new`; in the app this is unreachable
  because the sync columns are chosen from `df_new.columns`, and it is modelled
  by the `RErr.syncColsMissing` guard.
-/

namespace Updaterest

/-- Whitespace test used by `strip` (Python `str.strip()` strips whitespace). -/
def isWS (c : Char) : Bool := c.isWhitespace

/-- Strip whitespace from both ends of a character list. -/
def stripChars (l : List Char) : List Char :=
  ((l.dropWhile isWS).reverse.dropWhile isWS).reverse

/-- Python `str.strip()`. -/
def strip (s : String) : String := String.mk (stripChars s.data)

/-- A dataframe cell: `none` is pandas NaN / a missing column value. -/
abbrev Cell := Option String

/-- The uploaded dataframe `df_new`: ordered column names plus rows aligned
with them. -/
structure DataFrame where
  cols : List String
  rows : List (List Cell)
deriving DecidableEq

/-- `row.get(col)` on a pandas row (a Series indexed by `cols`): the value of
column `c`, or missing when the column is absent. -/
def rowGet (cols : List String) (row : List Cell) (c : String) : Cell :=
  match cols.indexOf? c with
  | some i => (row.get? i).getD none
  | none => none

/-- Line 236 coercion `astype(str).str.strip()` applied to one cell: pandas
`astype(str)` renders NaN as the string "nan". -/
def keyString : Cell → String
  | none => strip "nan"
  | some s => strip s

/-- The `_match_key__` value of one uploaded record (line 236). -/
def matchKey (cols : List String) (key : String) (row : List Cell) : String :=
  keyString (rowGet cols row key)

/-- Line 290 coercion `"" if pd.isna(val) else str(val).strip()`. -/
def syncString : Cell → String
  | none => ""
  | some s => strip s

/-- Reading a raw-row cell as a trimmed string: lines 255 and 288-291 both use
`row[i] if i < len(row) else ""` followed by `str(...).strip()` — a cell
outside the row's bounds is treated as the empty string. -/
def cellStr (row : List String) (i : Nat) : String :=
  strip ((row.get? i).getD "")

/-- Line 247 `header_map = {c: i for i, c in enumerate(header)}`: a duplicated
column name keeps its last position, as in a Python dict comprehension. -/
def headerMap : List String → String → Option Nat
  | [], _ => none
  | h :: t, c =>
    match headerMap t c with
    | some i => some (i + 1)
    | none => if h = c then some 0 else none

/-- `enumerate(rows, start=k)`. -/
def enumFrom : Nat → List α → List (Nat × α)
  | _, [] => []
  | k, x :: xs => (k, x) :: enumFrom (k + 1) xs

/-- One step of the index construction (lines 252-257): read the key cell,
trim it, and when non-empty overwrite the index entry with this row number. -/
def indexStep (kcol : Nat) (acc : String → Option Nat) (pr : Nat × List String) :
    String → Option Nat :=
  let v := cellStr pr.2 kcol
  if v = "" then acc else fun s => if s = v then some pr.1 else acc s

/-- Fold of `indexStep` over enumerated rows. -/
def buildIndexFrom (kcol : Nat) (acc : String → Option Nat)
    (rows : List (Nat × List String)) : String → Option Nat :=
  rows.foldl (indexStep kcol) acc

/-- Lines 250-257: `existing_key_to_row`, mapping each trimmed non-empty key
cell of the data rows (rows below the header, numbered from 2) to its sheet
row number; when the key column is absent from the header the index is empty. -/
def existing_key_to_row (header : List String) (key : String)
    (dataRows : List (List String)) : String → Option Nat :=
  match headerMap header key with
  | none => fun _ => none
  | some kcol => buildIndexFrom kcol (fun _ => none) (enumFrom 2 dataRows)

/-- Failure modes of the dry-run section: the `st.stop()` aborts at lines
226-228 and 241-243, the pandas KeyError at line 235, the pandas KeyError at
line 267, and the Python IndexError at line 293. -/
inductive RErr
  | keyNotInNew
  | keyNotInExisting
  | emptySheet
  | syncColsMissing
  | indexError
deriving DecidableEq

/-- Lines 283-297: walk `cols_to_sync`, overwriting `updated_row` (the first
component of the accumulator) wherever the new value is non-empty and differs
from the current cell, and recording in the second component whether any cell
changed.  Comparison always reads `current_raw_row`, never the partially
rebuilt row.  A write past the end of the row is Python IndexError. -/
def applySync (dfCols header : List String) (currentRow : List String)
    (newRow : List Cell) :
    List String → List String × Bool → Except RErr (List String × Bool)
  | [], acc => .ok acc
  | col :: rest, acc =>
    match headerMap header col with
    | none => applySync dfCols header currentRow newRow rest acc
    | some ci =>
      let svNew := syncString (rowGet dfCols newRow col)
      let svCur := cellStr currentRow ci
      if svNew ≠ "" ∧ svNew ≠ svCur then
        if ci < acc.1.length then
          applySync dfCols header currentRow newRow rest (acc.1.set ci svNew, true)
        else .error .indexError
      else applySync dfCols header currentRow newRow rest acc

/-- Lines 301-302 (and again 352-353): right-pad a row with "" when it is
shorter than `n`; a longer row is left alone (the source never truncates). -/
def padRow (n : Nat) (r : List String) : List String :=
  if r.length < n then r ++ List.replicate (n - r.length) "" else r

/-- Lines 276-305 for one record whose match key is an update candidate at
sheet row `rowNum`: diff against the raw row, and emit the padded rebuilt row
when something changed, nothing when the record is unchanged. -/
def processUpdate (raw : List (List String)) (header : List String)
    (colsToSync : List String) (dfCols : List String) (newRow : List Cell)
    (rowNum : Nat) : Except RErr (Option (Nat × List String)) :=
  let currentRow := (raw.get? (rowNum - 1)).getD []
  match applySync dfCols header currentRow newRow colsToSync (currentRow, false) with
  | .error e => .error e
  | .ok (urow, true) => .ok (some (rowNum, padRow header.length urow))
  | .ok (_, false) => .ok none

/-- Lines 274-305: iterate the uploaded records in order; records whose match
key has no index entry are the ones filtered out by the
`isin(to_update_keys)` mask; the others are diffed and counted. -/
def updateLoop (raw : List (List String)) (header : List String)
    (colsToSync : List String) (dfCols : List String) (key : String)
    (idx : String → Option Nat) :
    List (List Cell) → Except RErr (List (Nat × List String) × Nat)
  | [] => .ok ([], 0)
  | r :: rs =>
    match idx (matchKey dfCols key r) with
    | none => updateLoop raw header colsToSync dfCols key idx rs
    | some n =>
      match processUpdate raw header colsToSync dfCols r n with
      | .error e => .error e
      | .ok res =>
        match updateLoop raw header colsToSync dfCols key idx rs with
        | .error e => .error e
        | .ok (us, c) =>
          match res with
          | some u => .ok (u :: us, c)
          | none => .ok (us, c + 1)

/-- One step of lines 336-338: place the value of column `cv.1` at the
header position of that column; a column absent from the header is dropped.
The written value is `"" if pd.isna(val) else val` — the raw, unstripped
cell. -/
def insStep (header : List String) (acc : List String) (cv : String × Cell) :
    List String :=
  match headerMap header cv.1 with
  | some i => acc.set i (cv.2.getD "")
  | none => acc

/-- Lines 333-339: build the header-aligned row appended for one record of
`df_to_insert` (`proj` is the record already projected onto `cols_to_sync`,
in that column order, as `r.items()` yields it). -/
def buildInsertRow (header : List String) (colsToSync : List String)
    (proj : List Cell) : List String :=
  (colsToSync.zip proj).foldl (insStep header) (List.replicate header.length "")

/-- Line 267 column projection `df_new[mask][cols_to_sync]` applied to one
record. -/
def projectRow (dfCols colsToSync : List String) (r : List Cell) : List Cell :=
  colsToSync.map (rowGet dfCols r)

/-- The reconciliation outcome: `df_to_insert` (line 267), the header-aligned
insert rows (lines 333-339), `update_rows` and `unchanged_count`
(lines 269-305). -/
structure Outcome where
  dfToInsert : List (List Cell)
  insertValues : List (List String)
  updateRows : List (Nat × List String)
  unchanged : Nat
deriving DecidableEq

/-- Lines 223-305 plus 332-339: the whole dry-run computation.
Guards in source order: line 226 (key missing from the upload), line 235
(pandas KeyError: key column missing from a non-empty existing table, i.e.
the sheet has at least one data row), lines 241-243 (empty sheet abort),
line 267 (KeyError when a sync column is missing from the upload). -/
def reconcile (raw : List (List String)) (df : DataFrame) (key : String)
    (colsToSync : List String) : Except RErr Outcome :=
  if key ∈ df.cols then
    if 2 ≤ raw.length ∧ key ∉ raw.headD [] then .error .keyNotInExisting
    else if raw.isEmpty then .error .emptySheet
    else if ¬ (∀ c ∈ colsToSync, c ∈ df.cols) then .error .syncColsMissing
    else
      let header := raw.headD []
      let idx := existing_key_to_row header key raw.tail
      let insRecs := df.rows.filter (fun r => (idx (matchKey df.cols key r)).isNone)
      let dfToIns := insRecs.map (projectRow df.cols colsToSync)
      let insVals := dfToIns.map (buildInsertRow header colsToSync)
      match updateLoop raw header colsToSync df.cols key idx df.rows with
      | .error e => .error e
      | .ok (us, c) => .ok ⟨dfToIns, insVals, us, c⟩
  else .error .keyNotInNew

/-- Lines 328-366 as they change the sheet contents: the insert rows are
appended after the existing rows, then each update row is written over the
sheet row at its 1-based position (`ws.update("A{n}:...{n}", [full_row])`). -/
def applyOutcome (raw : List (List String)) (o : Outcome) :
    List (List String) :=
  o.updateRows.foldl (fun acc nu => acc.set (nu.1 - 1) nu.2)
    (raw ++ o.insertValues)

/-- Line 236 `df_new['_match_key__'] = df_new[key].astype(str).str.strip()`
mutates `df_new` in place, appending a `_match_key__` column; this is the
post-run state of the uploaded dataframe. -/
def addMatchKeyCol (df : DataFrame) (key : String) : DataFrame :=
  ⟨df.cols ++ ["_match_key__"],
   df.rows.map (fun r => r ++ [some (matchKey df.cols key r)])⟩

/-- The dry run together with the post-run state of `df_new` (the in-place
mutation of line 236).  The post-state on the error paths is not modelled. -/
def reconcileMut (raw : List (List String)) (df : DataFrame) (key : String)
    (colsToSync : List String) : Except RErr (DataFrame × Outcome) :=
  match reconcile raw df key colsToSync with
  | .error e => .error e
  | .ok o => .ok (addMatchKeyCol df key, o)

/-- Drop the last column of a dataframe (used to undo the `_match_key__`
mutation). -/
def dropLastCol (df : DataFrame) : DataFrame :=
  ⟨df.cols.dropLast, df.rows.map List.dropLast⟩

/-! Concrete inputs used by counterexamples and witnesses. -/

/-- Scenario A target sheet: header `[ID, Name, Score]`, data rows
`["1","Ann","10"]` and `["2","Bob","20"]`. -/
def rawScenA : List (List String) :=
  [["ID", "Name", "Score"], ["1", "Ann", "10"], ["2", "Bob", "20"]]

/-- Scenario A uploaded records `{ID:"2",Name:"Bob",Score:"25"}` and
`{ID:"3",Name:"Cara",Score:"30"}`. -/
def dfScenA : DataFrame :=
  ⟨["ID", "Name", "Score"],
   [[some "2", some "Bob", some "25"], [some "3", some "Cara", some "30"]]⟩

/-- A target sheet with a header row and no data rows. -/
def rawHdrOnly : List (List String) := [["ID"]]

/-- One uploaded record whose `ID` value is the empty string. -/
def dfEmptyKey : DataFrame := ⟨["ID"], [[some ""]]⟩

/-- A target sheet whose non-empty header lacks the upload's key column. -/
def rawHdrA : List (List String) := [["A"]]

/-- One uploaded record with key column `B`. -/
def dfKeyB : DataFrame := ⟨["B"], [[some "1"]]⟩

/-- A target sheet whose single data row is longer than the header. -/
def rawLong : List (List String) := [["ID", "Name"], ["1", "Ann", "x"]]

/-- One uploaded record that changes the `Name` of the long row. -/
def dfLong : DataFrame := ⟨["ID", "Name"], [[some "1", some "Bo"]]⟩

/-- A one-row target sheet matching `dfOne`. -/
def rawOne : List (List String) := [["ID"], ["1"]]

/-- One uploaded record identical to the target row. -/
def dfOne : DataFrame := ⟨["ID"], [[some "1"]]⟩

/-- A target sheet used by the duplicate-key scenario. -/
def rawDup : List (List String) := [["ID", "V"], ["1", "a"]]

end Updaterest

/-! # Theorems -/

namespace Updaterest

/-! ## Basic facts about `strip` -/

theorem stripChars_eq_rdropWhile (l : List Char) :
    stripChars l = List.rdropWhile isWS (l.dropWhile isWS) := rfl

theorem length_dropWhile_le (p : Char → Bool) (l : List Char) :
    (l.dropWhile p).length ≤ l.length := by
  induction l with
  | nil => simp
  | cons a t ih =>
    by_cases h : p a
    · simp only [List.dropWhile_cons, h, if_true, List.length_cons]
      omega
    · simp [List.dropWhile_cons, h]

theorem stripChars_idem (l : List Char) :
    stripChars (stripChars l) = stripChars l := by
  rw [stripChars_eq_rdropWhile, stripChars_eq_rdropWhile]
  set x := l.dropWhile isWS with hx
  have hxx : x.dropWhile isWS = x := by
    rw [hx]; exact List.dropWhile_idempotent isWS l
  have hpre : List.rdropWhile isWS x <+: x := List.rdropWhile_prefix isWS x
  have hdrop : (List.rdropWhile isWS x).dropWhile isWS = List.rdropWhile isWS x := by
    rcases hr : List.rdropWhile isWS x with _ | ⟨a, t⟩
    · simp
    · rcases hpre with ⟨u, hu⟩
      rw [hr] at hu
      have hxcons : x = a :: (t ++ u) := by rw [← hu]; simp
      have hna : ¬ isWS a = true := by
        intro ha
        rw [hxcons] at hxx
        simp only [List.dropWhile_cons, ha, if_true] at hxx
        have h1 := congrArg List.length hxx
        have h2 := length_dropWhile_le isWS (t ++ u)
        rw [List.length_cons] at h1
        omega
      simp [List.dropWhile_cons, hna]
  rw [hdrop, List.rdropWhile_idempotent]

theorem strip_strip (s : String) : strip (strip s) = strip s := by
  unfold strip
  exact congrArg String.mk (stripChars_idem s.data)

theorem syncString_strip (v : Cell) : strip (syncString v) = syncString v := by
  cases v with
  | none => rfl
  | some s => exact strip_strip s

theorem keyString_strip (v : Cell) : strip (keyString v) = keyString v := by
  cases v with
  | none => exact strip_strip _
  | some s => exact strip_strip s

theorem cellStr_strip (row : List String) (i : Nat) :
    strip (cellStr row i) = cellStr row i := strip_strip _

/-! ## Basic facts about `headerMap` -/

theorem headerMap_lt {header : List String} {c : String} {i : Nat}
    (h : headerMap header c = some i) : i < header.length := by
  induction header generalizing i with
  | nil => simp [headerMap] at h
  | cons a t ih =>
    simp only [headerMap] at h
    rcases hm : headerMap t c with _ | j
    · rw [hm] at h
      by_cases hac : a = c
      · simp [hac] at h
        simp [← h]
      · simp [hac] at h
    · rw [hm] at h
      simp only [Option.some.injEq] at h
      have := ih hm
      simp only [List.length_cons]
      omega

theorem headerMap_get? {header : List String} {c : String} {i : Nat}
    (h : headerMap header c = some i) : header.get? i = some c := by
  induction header generalizing i with
  | nil => simp [headerMap] at h
  | cons a t ih =>
    simp only [headerMap] at h
    rcases hm : headerMap t c with _ | j
    · rw [hm] at h
      by_cases hac : a = c
      · simp [hac] at h
        simp [← h, hac]
      · simp [hac] at h
    · rw [hm] at h
      simp only [Option.some.injEq] at h
      rw [← h]
      simpa using ih hm

theorem headerMap_eq_none {header : List String} {c : String} :
    headerMap header c = none ↔ c ∉ header := by
  induction header with
  | nil => simp [headerMap]
  | cons a t ih =>
    simp only [headerMap]
    rcases hm : headerMap t c with _ | j
    · have hct : c ∉ t := ih.mp hm
      by_cases hac : a = c
      · simp [hac]
      · simp [hac, hct]
        intro he
        exact hac he.symm
    · constructor
      · intro h
        simp at h
      · intro h
        exfalso
        have hct : c ∉ t := fun hc => h (List.mem_cons_of_mem a hc)
        rw [ih.mpr hct] at hm
        simp at hm

theorem headerMap_isSome_of_mem {header : List String} {c : String}
    (h : c ∈ header) : ∃ i, headerMap header c = some i := by
  rcases hm : headerMap header c with _ | i
  · exact absurd h (headerMap_eq_none.mp hm)
  · exact ⟨i, rfl⟩

/-! ## Facts about the Row Index Builder -/

theorem indexStep_empty (kcol : Nat) (acc : String → Option Nat)
    (pr : Nat × List String) : indexStep kcol acc pr "" = acc "" := by
  by_cases hv : cellStr pr.2 kcol = ""
  · simp [indexStep, hv]
  · have hne : ("" : String) ≠ cellStr pr.2 kcol := fun h => hv h.symm
    simp [indexStep, hv, hne]

theorem indexStep_ne {kcol : Nat} {v : String} {pr : Nat × List String}
    (h : cellStr pr.2 kcol ≠ v) (acc : String → Option Nat) :
    indexStep kcol acc pr v = acc v := by
  by_cases hv : cellStr pr.2 kcol = ""
  · simp [indexStep, hv]
  · have hne : v ≠ cellStr pr.2 kcol := fun he => h he.symm
    simp [indexStep, hv, hne]

theorem buildIndexFrom_cons (kcol : Nat) (acc : String → Option Nat)
    (p : Nat × List String) (t : List (Nat × List String)) :
    buildIndexFrom kcol acc (p :: t) =
      buildIndexFrom kcol (indexStep kcol acc p) t := rfl

theorem buildIndexFrom_empty (kcol : Nat) (l : List (Nat × List String))
    (acc : String → Option Nat) : buildIndexFrom kcol acc l "" = acc "" := by
  induction l generalizing acc with
  | nil => rfl
  | cons p t ih =>
    rw [buildIndexFrom_cons, ih, indexStep_empty]

theorem buildIndexFrom_notin {kcol : Nat} {v : String}
    {l : List (Nat × List String)} (h : ∀ pr ∈ l, cellStr pr.2 kcol ≠ v)
    (acc : String → Option Nat) : buildIndexFrom kcol acc l v = acc v := by
  induction l generalizing acc with
  | nil => rfl
  | cons p t ih =>
    rw [buildIndexFrom_cons,
      ih (fun pr hpr => h pr (List.mem_cons_of_mem p hpr)),
      indexStep_ne (h p (List.mem_cons_self p t))]

theorem enumFrom_snd_mem {pr : Nat × α} {k : Nat} {l : List α}
    (h : pr ∈ enumFrom k l) : pr.2 ∈ l := by
  induction l generalizing k with
  | nil => simp [enumFrom] at h
  | cons a t ih =>
    rw [enumFrom] at h
    rcases List.mem_cons.mp h with h1 | h1
    · subst h1; exact List.mem_cons_self a t
    · exact List.mem_cons_of_mem a (ih h1)

theorem buildIndexFrom_last {kcol : Nat} {row : List String}
    (hv : cellStr row kcol ≠ "") (l : List (List String)) :
    ∀ (k j : Nat) (acc : String → Option Nat), l.get? j = some row →
      (∀ j2 row2, j < j2 → l.get? j2 = some row2 →
        cellStr row2 kcol ≠ cellStr row kcol) →
      buildIndexFrom kcol acc (enumFrom k l) (cellStr row kcol) =
        some (k + j) := by
  induction l with
  | nil =>
    intro k j acc hj _
    simp at hj
  | cons q t ih =>
    intro k j acc hj hlast
    rw [show enumFrom k (q :: t) = (k, q) :: enumFrom (k + 1) t from rfl,
      buildIndexFrom_cons]
    cases j with
    | zero =>
      have hq : q = row := by simpa using hj
      subst hq
      rw [buildIndexFrom_notin]
      · simp [indexStep, hv]
      · intro pr hpr
        have hmem := enumFrom_snd_mem hpr
        rcases List.get?_of_mem hmem with ⟨j2, hj2⟩
        exact hlast (j2 + 1) pr.2 (Nat.succ_pos j2) (by simpa using hj2)
    | succ j0 =>
      have hj0 : t.get? j0 = some row := by simpa using hj
      have hlast0 : ∀ j2 row2, j0 < j2 → t.get? j2 = some row2 →
          cellStr row2 kcol ≠ cellStr row kcol := by
        intro j2 row2 hlt hget
        exact hlast (j2 + 1) row2 (by omega) (by simpa using hget)
      rw [ih (k + 1) j0 (indexStep kcol acc (k, q)) hj0 hlast0]
      congr 1
      omega

theorem buildIndexFrom_sound {kcol : Nat} {v : String} {p : Nat}
    (l : List (List String)) :
    ∀ (k : Nat) (acc : String → Option Nat),
      buildIndexFrom kcol acc (enumFrom k l) v = some p →
      acc v = some p ∨
        ∃ j row, l.get? j = some row ∧ cellStr row kcol = v ∧ v ≠ "" ∧
          p = k + j := by
  induction l with
  | nil =>
    intro k acc h
    left
    exact h
  | cons q t ih =>
    intro k acc h
    rw [show enumFrom k (q :: t) = (k, q) :: enumFrom (k + 1) t from rfl,
      buildIndexFrom_cons] at h
    rcases ih (k + 1) (indexStep kcol acc (k, q)) h with
      hacc | ⟨j, row, hj, hc, hv, hp⟩
    · by_cases h0 : cellStr q kcol = ""
      · left
        simpa [indexStep, h0] using hacc
      · by_cases hvq : v = cellStr q kcol
        · right
          refine ⟨0, q, rfl, hvq.symm, ?_, ?_⟩
          · rw [hvq]; exact h0
          · simp [indexStep, h0, hvq] at hacc
            omega
        · left
          simpa [indexStep, h0, hvq] using hacc
    · right
      exact ⟨j + 1, row, by simpa using hj, hc, hv, by omega⟩

theorem existing_key_to_row_empty (header : List String) (key : String)
    (rows : List (List String)) :
    existing_key_to_row header key rows "" = none := by
  unfold existing_key_to_row
  cases hk : headerMap header key with
  | none => rfl
  | some kcol => exact buildIndexFrom_empty kcol (enumFrom 2 rows) (fun _ => none)

theorem existing_key_to_row_sound {header : List String} {key : String}
    {rows : List (List String)} {kcol : Nat} {v : String} {p : Nat}
    (hk : headerMap header key = some kcol)
    (h : existing_key_to_row header key rows v = some p) :
    v ≠ "" ∧ ∃ j row, rows.get? j = some row ∧ cellStr row kcol = v ∧
      p = j + 2 := by
  unfold existing_key_to_row at h
  rw [hk] at h
  rcases buildIndexFrom_sound rows 2 (fun _ => none) h with hacc | ⟨j, row, hj, hc, hv, hp⟩
  · simp at hacc
  · exact ⟨hv, j, row, hj, hc, by omega⟩

theorem existing_key_to_row_last {header : List String} {key : String}
    {rows : List (List String)} {kcol : Nat} {j : Nat} {row : List String}
    (hk : headerMap header key = some kcol) (hj : rows.get? j = some row)
    (hv : cellStr row kcol ≠ "")
    (hlast : ∀ j2 row2, j < j2 → rows.get? j2 = some row2 →
      cellStr row2 kcol ≠ cellStr row kcol) :
    existing_key_to_row header key rows (cellStr row kcol) = some (j + 2) := by
  unfold existing_key_to_row
  rw [hk]
  show buildIndexFrom kcol (fun _ => none) (enumFrom 2 rows)
    (cellStr row kcol) = some (j + 2)
  rw [buildIndexFrom_last hv rows 2 j (fun _ => none) hj hlast]
  congr 1
  omega

/-! ## Claim C7 -/

/-- Claim C7: the Row Index Builder maps trimmed non-empty key cells of the
data rows (row at list position `j` is sheet row `j + 2`) such that a cell
outside a row's bounds reads as empty (`cellStr` is exactly the source's
`row[kcol] if kcol < len(row) else ""` plus strip), blank keys are never
indexed, every index entry comes from a data row whose trimmed key cell is
that key, and when the same trimmed key occurs in several rows the last
occurrence wins. -/
theorem c7_index_builder (header : List String) (key : String)
    (rows : List (List String)) (kcol : Nat)
    (hk : headerMap header key = some kcol) :
    (existing_key_to_row header key rows "" = none) ∧
    (∀ v p, existing_key_to_row header key rows v = some p →
      v ≠ "" ∧ ∃ j row, rows.get? j = some row ∧ cellStr row kcol = v ∧
        p = j + 2) ∧
    (∀ j row, rows.get? j = some row → cellStr row kcol ≠ "" →
      (∀ j2 row2, j < j2 → rows.get? j2 = some row2 →
        cellStr row2 kcol ≠ cellStr row kcol) →
      existing_key_to_row header key rows (cellStr row kcol) = some (j + 2)) := by
  refine ⟨existing_key_to_row_empty header key rows, ?_, ?_⟩
  · intro v p h
    exact existing_key_to_row_sound hk h
  · intro j row hj hv hlast
    exact existing_key_to_row_last hk hj hv hlast

/-- Witness for `c7_index_builder`: with duplicated key "a" in rows 2 and 3
the index keeps the later row 3, and the blank key is absent. -/
theorem c7_index_builder_witness :
    existing_key_to_row ["K"] "K" [["a"], ["a"]] "a" = some 3 ∧
    existing_key_to_row ["K"] "K" [["a"], ["a"]] "" = none := by
  have h := c7_index_builder ["K"] "K" [["a"], ["a"]] 0 rfl
  constructor
  · have h3 := h.2.2 1 ["a"] rfl (by decide) ?_
    · simpa using h3
    · intro j2 row2 hlt hget
      have hnone : ([["a"], ["a"]] : List (List String)).get? j2 = none := by
        rw [List.get?_eq_none]
        simp only [List.length_cons, List.length_nil]
        omega
      rw [hnone] at hget
      exact absurd hget (by simp)
  · exact h.1

/-! ## Claim C1 (Scenario A) -/

/-! ## Claim C1 (Scenario A) -/

/-- Claim C1, counterexample: on Scenario A with sync columns `[Name, Score]`
the code's Insert Set row is `["", "Cara", "30"]`, not the claimed
`["3", "Cara", "30"]` — the `ID` cell comes out empty because line 267
projects `df_to_insert` onto the sync columns, which exclude the key. -/
theorem c1_scenarioA_counterexample :
    reconcile rawScenA dfScenA "ID" ["Name", "Score"] =
      .ok ⟨[[some "Cara", some "30"]], [["", "Cara", "30"]],
           [(3, ["2", "Bob", "25"])], 0⟩ ∧
    ¬ ((["", "Cara", "30"] : List String) = ["3", "Cara", "30"]) := by
  exact ⟨rfl, by decide⟩

/-- Claim C1, amended: on Scenario A the Reconciler produces Update Set
`[(3, ["2","Bob","25"])]` and Unchanged count 0 exactly as claimed, but the
single header-aligned insert row is `["", "Cara", "30"]`: the key cell is
empty because `df_to_insert` is projected onto the sync columns
`[Name, Score]`, which exclude `ID`. -/
theorem c1_scenarioA_amended :
    reconcile rawScenA dfScenA "ID" ["Name", "Score"] =
      .ok ⟨[[some "Cara", some "30"]], [["", "Cara", "30"]],
           [(3, ["2", "Bob", "25"])], 0⟩ := rfl

/-! ## Claim C3, counterexample -/

/-- Claim C3, counterexample: an uploaded record whose match key is the empty
string is NOT excluded from the three partitions — it is placed in the
Insert Set (its key "" is in `new_keys` but never in the index, so it lands
in `to_insert_keys` and `df_to_insert` keeps it). -/
theorem c3_partition_counterexample :
    matchKey dfEmptyKey.cols "ID" [some ""] = "" ∧
    reconcile rawHdrOnly dfEmptyKey "ID" ["ID"] =
      .ok ⟨[[some ""]], [[""]], [], 0⟩ ∧
    ¬ (([[some ""]] : List (List Cell)) = []) := by
  exact ⟨rfl, rfl, by decide⟩

/-! ## Claim C4 -/

/-- Claim C4, counterexample: the key column `B` is absent from the non-empty
target header `["A"]`, yet no error is raised and an outcome is produced —
because the sheet has no data rows, `get_all_records` is empty, so line 232
replaces `df_existing` with an upload-shaped empty frame and the line 235
lookup that would raise KeyError never sees the sheet's header. -/
theorem c4_config_error_counterexample :
    ¬ ("B" ∈ rawHdrA.headD []) ∧ rawHdrA ≠ [] ∧
    reconcile rawHdrA dfKeyB "B" ["B"] =
      .ok ⟨[[some "1"]], [[""]], [], 0⟩ := by
  exact ⟨by decide, by decide, rfl⟩

/-- Claim C4, amended: the run fails before any partitioning when the key
column is absent from the uploaded records (line 226), or when it is absent
from the existing table's columns and the target sheet has at least one data
row (the pandas KeyError at line 235).  When the target header is non-empty
but the sheet has no data rows, a missing key column raises no error and all
records are partitioned as inserts. -/
theorem c4_config_error_amended (raw : List (List String)) (df : DataFrame)
    (key : String) (cs : List String) :
    (key ∉ df.cols → reconcile raw df key cs = .error .keyNotInNew) ∧
    (key ∈ df.cols → 2 ≤ raw.length → key ∉ raw.headD [] →
      reconcile raw df key cs = .error .keyNotInExisting) := by
  constructor
  · intro h
    simp [reconcile, h]
  · intro h1 h2 h3
    unfold reconcile
    rw [if_pos h1, if_pos (show 2 ≤ raw.length ∧ key ∉ raw.headD [] from ⟨h2, h3⟩)]

/-- Witness for `c4_config_error_amended` at concrete inputs. -/
theorem c4_config_error_amended_witness :
    reconcile rawOne dfKeyB "ID" [] = .error .keyNotInNew ∧
    reconcile rawOne dfOne "X" [] = .error .keyNotInNew ∧
    reconcile [["A"], ["1"]] dfKeyB "B" ["B"] = .error .keyNotInExisting := by
  refine ⟨(c4_config_error_amended rawOne dfKeyB "ID" []).1 (by decide),
    (c4_config_error_amended rawOne dfOne "X" []).1 (by decide),
    (c4_config_error_amended [["A"], ["1"]] dfKeyB "B" ["B"]).2
      (by decide) (by decide) (by decide)⟩

/-! ## Claim C5, counterexample -/

/-- Claim C5, counterexample: a target data row longer than the header is
never truncated — the emitted update row `["1","Bo","x"]` has length 3 while
the header `["ID","Name"]` has length 2 (lines 301-302 and 352-353 only pad,
they never cut). -/
theorem c5_row_width_counterexample :
    reconcile rawLong dfLong "ID" ["ID", "Name"] =
      .ok ⟨[], [], [(2, ["1", "Bo", "x"])], 0⟩ ∧
    ¬ ((["1", "Bo", "x"] : List String).length = (rawLong.headD []).length) := by
  exact ⟨rfl, by decide⟩

/-! ## Claim C6 -/

/-- Claim C6: when the target sheet has no rows at all the code does NOT
degenerate to insert-all — lines 241-243 run
`st.error("Sheet target kosong (tidak ada header). Aborting."); st.stop()`
and the run aborts with no outcome, although the app's own warning at line
208 promises that for an empty sheet all uploaded data will be added with a
freshly established header. -/
theorem c6_empty_sheet_abort (df : DataFrame) (key : String)
    (cs : List String) (hk : key ∈ df.cols) :
    reconcile [] df key cs = .error .emptySheet := by
  simp [reconcile, hk]

/-- Witness for `c6_empty_sheet_abort`. -/
theorem c6_empty_sheet_abort_witness :
    "ID" ∈ dfOne.cols ∧ reconcile [] dfOne "ID" ["ID"] = .error .emptySheet :=
  ⟨by decide, c6_empty_sheet_abort dfOne "ID" ["ID"] (by decide)⟩

/-! ## Claim C8, counterexample -/

/-- Claim C8, counterexample: a record whose key value is the empty string is
re-inserted on every run.  The first run inserts `[""]`; after applying the
outcome, the second run's index still has no entry for `""` (blank keys are
never indexed), so the second run's Insert Set is again non-empty, violating
idempotence as claimed for every target table and record batch. -/
theorem c8_idempotence_counterexample :
    reconcile rawHdrOnly dfEmptyKey "ID" ["ID"] =
      .ok ⟨[[some ""]], [[""]], [], 0⟩ ∧
    applyOutcome rawHdrOnly ⟨[[some ""]], [[""]], [], 0⟩ = [["ID"], [""]] ∧
    reconcile [["ID"], [""]] dfEmptyKey "ID" ["ID"] =
      .ok ⟨[[some ""]], [[""]], [], 0⟩ ∧
    ¬ (([[""]] : List (List String)) = []) := by
  exact ⟨rfl, rfl, rfl, by decide⟩

/-! ## Claim C9 -/

/-- Claim C9, counterexample: the run mutates the uploaded table in place —
line 236 appends a `_match_key__` column to `df_new`, so after the run the
new-record table is not equal to its pre-run value. -/
theorem c9_mutation_counterexample :
    reconcileMut rawOne dfOne "ID" ["ID"] =
      .ok (⟨["ID", "_match_key__"], [[some "1", some "1"]]⟩,
           ⟨[], [], [], 1⟩) ∧
    ¬ ((⟨["ID", "_match_key__"], [[some "1", some "1"]]⟩ : DataFrame) = dfOne) := by
  exact ⟨rfl, by decide⟩

/-- Claim C9, amended: the only observable mutation of the uploaded table is
the `_match_key__` column appended by line 236 — dropping that last column
recovers the pre-run table exactly; the raw target rows are read through
copies (`current_raw_row.copy()`, line 281) and are never written. -/
theorem c9_mutation_amended (raw : List (List String)) (df : DataFrame)
    (key : String) (cs : List String) (df2 : DataFrame) (o : Outcome)
    (h : reconcileMut raw df key cs = .ok (df2, o)) :
    dropLastCol df2 = df ∧ reconcile raw df key cs = .ok o := by
  rcases hr : reconcile raw df key cs with e | o2
  · rw [reconcileMut, hr] at h
    simp at h
  · rw [reconcileMut, hr] at h
    simp only [Except.ok.injEq, Prod.mk.injEq] at h
    obtain ⟨h1, h2⟩ := h
    subst h2
    constructor
    · rw [← h1]
      rcases df with ⟨cols, rows⟩
      simp only [dropLastCol, addMatchKeyCol, List.map_map]
      congr 1
      · simp
      · have hc : ∀ r ∈ rows,
            (List.dropLast ∘ fun r => r ++ [some (matchKey cols key r)]) r =
              id r := by
          intro r _
          simp [Function.comp]
        rw [List.map_congr_left hc, List.map_id]
    · rfl

/-- Witness for `c9_mutation_amended`. -/
theorem c9_mutation_amended_witness :
    dropLastCol ⟨["ID", "_match_key__"], [[some "1", some "1"]]⟩ = dfOne ∧
    reconcile rawOne dfOne "ID" ["ID"] = .ok ⟨[], [], [], 1⟩ :=
  c9_mutation_amended rawOne dfOne "ID" ["ID"] _ _ rfl

/-! ## Facts about `updateLoop` -/

theorem updateLoop_mem {raw : List (List String)} {header cs cols : List String}
    {key : String} {idx : String → Option Nat} {rows : List (List Cell)}
    {us : List (Nat × List String)} {c : Nat} {u : Nat × List String}
    (h : updateLoop raw header cs cols key idx rows = .ok (us, c))
    (hu : u ∈ us) :
    ∃ r ∈ rows, ∃ n, idx (matchKey cols key r) = some n ∧
      processUpdate raw header cs cols r n = .ok (some u) := by
  induction rows generalizing us c with
  | nil =>
    simp only [updateLoop, Except.ok.injEq, Prod.mk.injEq] at h
    rw [← h.1] at hu
    simp at hu
  | cons r rs ih =>
    simp only [updateLoop] at h
    cases hidx : idx (matchKey cols key r) with
    | none =>
      simp only [hidx] at h
      rcases ih h hu with ⟨r2, hr2, n2, hn2, hp2⟩
      exact ⟨r2, List.mem_cons_of_mem r hr2, n2, hn2, hp2⟩
    | some n =>
      simp only [hidx] at h
      cases hpu : processUpdate raw header cs cols r n with
      | error e => simp only [hpu] at h; exact Except.noConfusion h
      | ok res =>
        simp only [hpu] at h
        cases hloop : updateLoop raw header cs cols key idx rs with
        | error e => simp only [hloop] at h; exact Except.noConfusion h
        | ok uc =>
          rcases uc with ⟨us0, c0⟩
          simp only [hloop] at h
          cases res with
          | some v =>
            simp only [Except.ok.injEq, Prod.mk.injEq] at h
            obtain ⟨h1, _⟩ := h
            rw [← h1] at hu
            rcases List.mem_cons.mp hu with he | he
            · subst he
              exact ⟨r, List.mem_cons_self r rs, n, hidx, hpu⟩
            · rcases ih hloop he with ⟨r2, hr2, n2, hn2, hp2⟩
              exact ⟨r2, List.mem_cons_of_mem r hr2, n2, hn2, hp2⟩
          | none =>
            simp only [Except.ok.injEq, Prod.mk.injEq] at h
            obtain ⟨h1, _⟩ := h
            rw [← h1] at hu
            rcases ih hloop hu with ⟨r2, hr2, n2, hn2, hp2⟩
            exact ⟨r2, List.mem_cons_of_mem r hr2, n2, hn2, hp2⟩

/-! ## Claim C10 -/

/-- Claim C10: the update loop processes records independently — a batch that
splits as `xs ++ ys` yields exactly the update rows of `xs` followed by the
update rows of `ys` and the sum of their unchanged counts.  Each record is
diffed by `processUpdate` against the raw row captured at index-build time
(never against another record's rebuilt row), so several records sharing one
match key produce several update entries carrying the same target row
position, each decided only by that record and the original row. -/
theorem c10_independent_diff (raw : List (List String))
    (header cs cols : List String) (key : String) (idx : String → Option Nat)
    (xs ys : List (List Cell)) (u : List (Nat × List String)) (c : Nat)
    (h : updateLoop raw header cs cols key idx (xs ++ ys) = .ok (u, c)) :
    ∃ u1 c1 u2 c2, updateLoop raw header cs cols key idx xs = .ok (u1, c1) ∧
      updateLoop raw header cs cols key idx ys = .ok (u2, c2) ∧
      u = u1 ++ u2 ∧ c = c1 + c2 := by
  induction xs generalizing u c with
  | nil =>
    exact ⟨[], 0, u, c, rfl, h, by simp, by omega⟩
  | cons r rs ih =>
    rw [List.cons_append] at h
    simp only [updateLoop] at h ⊢
    cases hidx : idx (matchKey cols key r) with
    | none =>
      simp only [hidx] at h ⊢
      exact ih _ _ h
    | some n =>
      simp only [hidx] at h ⊢
      cases hpu : processUpdate raw header cs cols r n with
      | error e => simp only [hpu] at h; exact Except.noConfusion h
      | ok res =>
        simp only [hpu] at h ⊢
        cases hloop : updateLoop raw header cs cols key idx (rs ++ ys) with
        | error e => simp only [hloop] at h; exact Except.noConfusion h
        | ok uc =>
          rcases uc with ⟨us0, c0⟩
          simp only [hloop] at h
          rcases ih _ _ hloop with ⟨u1, c1, u2, c2, h1, h2, h3, h4⟩
          rw [h1]
          cases res with
          | some v =>
            simp only [Except.ok.injEq, Prod.mk.injEq] at h
            obtain ⟨hu, hc⟩ := h
            exact ⟨v :: u1, c1, u2, c2, rfl, h2,
              by rw [← hu, h3]; rfl, by omega⟩
          | none =>
            simp only [Except.ok.injEq, Prod.mk.injEq] at h
            obtain ⟨hu, hc⟩ := h
            exact ⟨u1, c1 + 1, u2, c2, rfl, h2,
              by rw [← hu, h3], by omega⟩

/-- Witness for `c10_independent_diff`: two records with the same key "1"
both update sheet row 2, each diffed against the original raw row. -/
theorem c10_independent_diff_witness :
    updateLoop rawDup ["ID", "V"] ["ID", "V"] ["ID", "V"] "ID"
      (existing_key_to_row ["ID", "V"] "ID" rawDup.tail)
      ([[some "1", some "b"]] ++ [[some "1", some "c"]]) =
      .ok ([(2, ["1", "b"]), (2, ["1", "c"])], 0) ∧
    ∃ u1 c1 u2 c2,
      updateLoop rawDup ["ID", "V"] ["ID", "V"] ["ID", "V"] "ID"
        (existing_key_to_row ["ID", "V"] "ID" rawDup.tail)
        [[some "1", some "b"]] = .ok (u1, c1) ∧
      updateLoop rawDup ["ID", "V"] ["ID", "V"] ["ID", "V"] "ID"
        (existing_key_to_row ["ID", "V"] "ID" rawDup.tail)
        [[some "1", some "c"]] = .ok (u2, c2) ∧
      ([(2, ["1", "b"]), (2, ["1", "c"])] : List (Nat × List String)) =
        u1 ++ u2 ∧ 0 = c1 + c2 :=
  ⟨rfl, c10_independent_diff rawDup ["ID", "V"] ["ID", "V"] ["ID", "V"] "ID"
    (existing_key_to_row ["ID", "V"] "ID" rawDup.tail)
    [[some "1", some "b"]] [[some "1", some "c"]] _ _ rfl⟩

/-! ## Facts about `applySync` and `padRow` -/

theorem applySync_length {dfCols header currentRow : List String}
    {newRow : List Cell} (csList : List String) :
    ∀ (acc res : List String × Bool),
      applySync dfCols header currentRow newRow csList acc = .ok res →
      res.1.length = acc.1.length := by
  induction csList with
  | nil =>
    intro acc res h
    simp only [applySync, Except.ok.injEq] at h
    rw [← h]
  | cons col rest ih =>
    intro acc res h
    simp only [applySync] at h
    cases hm : headerMap header col with
    | none =>
      simp only [hm] at h
      exact ih acc res h
    | some ci =>
      simp only [hm] at h
      split at h
      · split at h
        · have hr := ih _ _ h
          rw [hr]
          simp
        · exact Except.noConfusion h
      · exact ih acc res h

theorem applySync_preserve {dfCols header currentRow : List String}
    {newRow : List Cell} {p : Nat} (csList : List String)
    (hcond : ∀ col ∈ csList, headerMap header col = some p →
      syncString (rowGet dfCols newRow col) = "" ∨
      syncString (rowGet dfCols newRow col) = cellStr currentRow p) :
    ∀ (acc res : List String × Bool),
      applySync dfCols header currentRow newRow csList acc = .ok res →
      res.1.get? p = acc.1.get? p := by
  induction csList with
  | nil =>
    intro acc res h
    simp only [applySync, Except.ok.injEq] at h
    rw [← h]
  | cons col rest ih =>
    intro acc res h
    have hcondt : ∀ c ∈ rest, headerMap header c = some p →
        syncString (rowGet dfCols newRow c) = "" ∨
        syncString (rowGet dfCols newRow c) = cellStr currentRow p :=
      fun c hc => hcond c (List.mem_cons_of_mem col hc)
    simp only [applySync] at h
    cases hm : headerMap header col with
    | none =>
      simp only [hm] at h
      exact ih hcondt acc res h
    | some ci =>
      simp only [hm] at h
      split at h
      next hcnd =>
        split at h
        next hlt =>
          have hr := ih hcondt _ _ h
          rw [hr]
          by_cases hpc : ci = p
          · exfalso
            subst hpc
            rcases hcond col (List.mem_cons_self col rest) hm with h1 | h1
            · exact hcnd.1 h1
            · exact hcnd.2 h1
          · exact List.get?_set_ne _ _ hpc
        next => exact Except.noConfusion h
      next => exact ih hcondt acc res h

/-- Every cell of the rebuilt row either kept the starting row's value or was
overwritten with the sync value of the column sitting at that header
position (which is then non-empty). -/
theorem applySync_cells {dfCols header currentRow : List String}
    {newRow : List Cell} {p : Nat} (csList : List String) :
    ∀ (acc res : List String × Bool),
      applySync dfCols header currentRow newRow csList acc = .ok res →
      res.1.get? p = acc.1.get? p ∨
        ∃ col, headerMap header col = some p ∧
          syncString (rowGet dfCols newRow col) ≠ "" ∧
          res.1.get? p = some (syncString (rowGet dfCols newRow col)) := by
  induction csList with
  | nil =>
    intro acc res h
    simp only [applySync, Except.ok.injEq] at h
    rw [← h]
    left
    rfl
  | cons col rest ih =>
    intro acc res h
    simp only [applySync] at h
    cases hm : headerMap header col with
    | none =>
      simp only [hm] at h
      exact ih acc res h
    | some ci =>
      simp only [hm] at h
      split at h
      next hcnd =>
        split at h
        next hlt =>
          rcases ih _ _ h with h1 | h1
          · by_cases hpc : ci = p
            · subst hpc
              right
              refine ⟨col, hm, hcnd.1, ?_⟩
              rw [h1]
              exact List.get?_set_eq_of_lt _ hlt
            · left
              rw [h1]
              exact List.get?_set_ne _ _ hpc
          · right
            exact h1
        next => exact Except.noConfusion h
      next => exact ih acc res h

/-- Once a cell holds the sync value of the column at its header position,
the rest of the fold keeps it (any later writer to that position is a column
with the same name, hence the same value). -/
theorem applySync_stable {dfCols header currentRow : List String}
    {newRow : List Cell} {p : Nat} {colp : String}
    (hmp : headerMap header colp = some p) (csList : List String) :
    ∀ (acc res : List String × Bool),
      applySync dfCols header currentRow newRow csList acc = .ok res →
      acc.1.get? p = some (syncString (rowGet dfCols newRow colp)) →
      res.1.get? p = some (syncString (rowGet dfCols newRow colp)) := by
  induction csList with
  | nil =>
    intro acc res h hacc
    simp only [applySync, Except.ok.injEq] at h
    rw [← h]
    exact hacc
  | cons col rest ih =>
    intro acc res h hacc
    simp only [applySync] at h
    cases hm : headerMap header col with
    | none =>
      simp only [hm] at h
      exact ih _ _ h hacc
    | some ci =>
      simp only [hm] at h
      split at h
      next hcnd =>
        split at h
        next hlt =>
          refine ih _ _ h ?_
          by_cases hpc : ci = p
          · subst hpc
            have hcc : col = colp := by
              have h1 := headerMap_get? hm
              have h2 := headerMap_get? hmp
              rw [h1] at h2
              exact Option.some_injective _ h2
            subst hcc
            rw [List.get?_set_eq_of_lt _ hlt]
          · rw [List.get?_set_ne _ _ hpc]
            exact hacc
        next => exact Except.noConfusion h
      next => exact ih _ _ h hacc

/-- Per-column account of a successful fold: each sync column's value is
empty, or matched the current cell, or ended up written at its header
position. -/
theorem applySync_guard {dfCols header currentRow : List String}
    {newRow : List Cell} (csList : List String) :
    ∀ (acc res : List String × Bool),
      applySync dfCols header currentRow newRow csList acc = .ok res →
      ∀ col ∈ csList, ∀ ci, headerMap header col = some ci →
        syncString (rowGet dfCols newRow col) = "" ∨
        syncString (rowGet dfCols newRow col) = cellStr currentRow ci ∨
        res.1.get? ci = some (syncString (rowGet dfCols newRow col)) := by
  induction csList with
  | nil =>
    intro acc res h col hcol
    simp at hcol
  | cons col0 rest ih =>
    intro acc res h col hcol ci hci
    simp only [applySync] at h
    cases hm : headerMap header col0 with
    | none =>
      simp only [hm] at h
      rcases List.mem_cons.mp hcol with he | he
      · subst he
        rw [hci] at hm
        exact Option.noConfusion hm
      · exact ih _ _ h col he ci hci
    | some ci0 =>
      simp only [hm] at h
      split at h
      next hcnd =>
        split at h
        next hlt =>
          rcases List.mem_cons.mp hcol with he | he
          · subst he
            rw [hci] at hm
            injection hm with hm0
            subst hm0
            right; right
            refine applySync_stable hci rest _ _ h ?_
            exact List.get?_set_eq_of_lt _ hlt
          · exact ih _ _ h col he ci hci
        next => exact Except.noConfusion h
      next hcnd =>
        rcases List.mem_cons.mp hcol with he | he
        · subst he
          rw [hci] at hm
          injection hm with hm0
          subst hm0
          rw [Decidable.not_and_iff_or_not] at hcnd
          rcases hcnd with h1 | h1
          · left
            simpa using h1
          · right; left
            simpa using h1
        · exact ih _ _ h col he ci hci

/-- When no sync column wants a change, the fold is the identity and the
changed flag keeps its value. -/
theorem applySync_nochange {dfCols header currentRow : List String}
    {newRow : List Cell} (csList : List String)
    (hcond : ∀ col ∈ csList, ∀ ci, headerMap header col = some ci →
      syncString (rowGet dfCols newRow col) = "" ∨
      syncString (rowGet dfCols newRow col) = cellStr currentRow ci) :
    ∀ acc, applySync dfCols header currentRow newRow csList acc = .ok acc := by
  induction csList with
  | nil =>
    intro acc
    rfl
  | cons col rest ih =>
    intro acc
    have hcondt : ∀ c ∈ rest, ∀ ci, headerMap header c = some ci →
        syncString (rowGet dfCols newRow c) = "" ∨
        syncString (rowGet dfCols newRow c) = cellStr currentRow ci :=
      fun c hc => hcond c (List.mem_cons_of_mem col hc)
    simp only [applySync]
    cases hm : headerMap header col with
    | none =>
      simp only [hm]
      exact ih hcondt acc
    | some ci =>
      simp only [hm]
      have hng : ¬ (syncString (rowGet dfCols newRow col) ≠ "" ∧
          syncString (rowGet dfCols newRow col) ≠ cellStr currentRow ci) := by
        rcases hcond col (List.mem_cons_self col rest) ci hm with h1 | h1
        · intro hc; exact hc.1 h1
        · intro hc; exact hc.2 h1
      rw [if_neg hng]
      exact ih hcondt acc

/-- The changed flag is monotone: a fold started with the flag already true
cannot end with it false. -/
theorem applySync_true {dfCols header currentRow : List String}
    {newRow : List Cell} (csList : List String) :
    ∀ (acc res : List String),
      applySync dfCols header currentRow newRow csList (acc, true) =
        .ok (res, false) → False := by
  induction csList with
  | nil =>
    intro acc res h
    simp only [applySync, Except.ok.injEq, Prod.mk.injEq] at h
    exact Bool.noConfusion h.2
  | cons col rest ih =>
    intro acc res h
    simp only [applySync] at h
    cases hm : headerMap header col with
    | none =>
      simp only [hm] at h
      exact ih acc res h
    | some ci =>
      simp only [hm] at h
      split at h
      · split at h
        · exact ih _ res h
        · exact Except.noConfusion h
      · exact ih acc res h

theorem get?_replicate (a : String) {m i : Nat} (h : i < m) :
    (List.replicate m a).get? i = some a := by
  induction m generalizing i with
  | zero => omega
  | succ m ih =>
    cases i with
    | zero => rfl
    | succ i0 => simpa [List.replicate] using ih (by omega)

theorem padRow_length (n : Nat) (r : List String) :
    (padRow n r).length = max n r.length := by
  unfold padRow
  split
  next h =>
    simp only [List.length_append, List.length_replicate]
    omega
  next h => omega

theorem padRow_get?_lt {n : Nat} {r : List String} {p : Nat}
    (hp : p < r.length) : (padRow n r).get? p = r.get? p := by
  unfold padRow
  split
  next => exact List.get?_append hp
  next => rfl

theorem padRow_get?_pad {n : Nat} {r : List String} {p : Nat}
    (h1 : r.length ≤ p) (h2 : p < n) : (padRow n r).get? p = some "" := by
  unfold padRow
  split
  next h =>
    rw [List.get?_append_right h1]
    exact get?_replicate _ (by omega)
  next h =>
    exfalso
    omega

theorem padRow_get?_ge {n : Nat} {r : List String} {p : Nat} (h : n ≤ p) :
    (padRow n r).get? p = r.get? p := by
  unfold padRow
  split
  next hlt =>
    rw [List.get?_append_right (by omega), List.get?_len_le (by simp; omega),
      List.get?_len_le (by omega)]
  next => rfl

/-- A run that ends with the changed flag still false never wrote anything:
the row is returned unchanged and every sync column's guard failed. -/
theorem applySync_false {dfCols header currentRow : List String}
    {newRow : List Cell} (csList : List String) :
    ∀ (acc : List String × Bool) (res : List String),
      applySync dfCols header currentRow newRow csList (acc.1, false) =
        .ok (res, false) →
      res = acc.1 ∧
        ∀ col ∈ csList, ∀ ci, headerMap header col = some ci →
          syncString (rowGet dfCols newRow col) = "" ∨
          syncString (rowGet dfCols newRow col) = cellStr currentRow ci := by
  induction csList with
  | nil =>
    intro acc res h
    simp only [applySync, Except.ok.injEq, Prod.mk.injEq] at h
    exact ⟨h.1.symm, by simp⟩
  | cons col rest ih =>
    intro acc res h
    simp only [applySync] at h
    cases hm : headerMap header col with
    | none =>
      simp only [hm] at h
      rcases ih acc res h with ⟨h1, h2⟩
      refine ⟨h1, ?_⟩
      intro c hc ci hci
      rcases List.mem_cons.mp hc with he | he
      · subst he
        rw [hci] at hm
        exact Option.noConfusion hm
      · exact h2 c he ci hci
    | some ci0 =>
      simp only [hm] at h
      split at h
      next hcnd =>
        split at h
        next hlt =>
          exfalso
          have := applySync_true rest _ _ h
          exact this
        next => exact Except.noConfusion h
      next hcnd =>
        rcases ih acc res h with ⟨h1, h2⟩
        refine ⟨h1, ?_⟩
        intro c hc ci hci
        rcases List.mem_cons.mp hc with he | he
        · subst he
          rw [hci] at hm
          injection hm with hm0
          subst hm0
          rw [Decidable.not_and_iff_or_not] at hcnd
          rcases hcnd with hx | hx
          · left
            simpa using hx
          · right
            simpa using hx
        · exact h2 c he ci hci

/-! ## Eliminating `processUpdate` and `reconcile` -/

theorem processUpdate_ok_some {raw : List (List String)}
    {header cs cols : List String} {r : List Cell} {n : Nat}
    {u : Nat × List String}
    (h : processUpdate raw header cs cols r n = .ok (some u)) :
    ∃ urow, applySync cols header ((raw.get? (n - 1)).getD []) r cs
        ((raw.get? (n - 1)).getD [], false) = .ok (urow, true) ∧
      u = (n, padRow header.length urow) := by
  simp only [processUpdate] at h
  cases has : applySync cols header ((raw.get? (n - 1)).getD []) r cs
      ((raw.get? (n - 1)).getD [], false) with
  | error e =>
    simp only [has] at h
    exact Except.noConfusion h
  | ok ub =>
    rcases ub with ⟨urow, b⟩
    simp only [has] at h
    cases b with
    | false => simp at h
    | true =>
      simp only [Except.ok.injEq, Option.some.injEq] at h
      exact ⟨urow, rfl, h.symm⟩

theorem processUpdate_ok_none {raw : List (List String)}
    {header cs cols : List String} {r : List Cell} {n : Nat}
    (h : processUpdate raw header cs cols r n = .ok none) :
    applySync cols header ((raw.get? (n - 1)).getD []) r cs
      ((raw.get? (n - 1)).getD [], false) =
      .ok ((raw.get? (n - 1)).getD [], false) := by
  simp only [processUpdate] at h
  cases has : applySync cols header ((raw.get? (n - 1)).getD []) r cs
      ((raw.get? (n - 1)).getD [], false) with
  | error e =>
    simp only [has] at h
    exact Except.noConfusion h
  | ok ub =>
    rcases ub with ⟨urow, b⟩
    cases b with
    | false =>
      rcases applySync_false cs ((raw.get? (n - 1)).getD [], false) urow has
        with ⟨h1, _⟩
      rw [h1]
    | true =>
      simp only [has] at h
      simp at h

theorem reconcile_ok_elim {raw : List (List String)} {df : DataFrame}
    {key : String} {cs : List String} {o : Outcome}
    (h : reconcile raw df key cs = .ok o) :
    key ∈ df.cols ∧ ¬ (2 ≤ raw.length ∧ key ∉ raw.headD []) ∧ raw ≠ [] ∧
    (∀ c ∈ cs, c ∈ df.cols) ∧
    o.dfToInsert = (df.rows.filter (fun r =>
      (existing_key_to_row (raw.headD []) key raw.tail
        (matchKey df.cols key r)).isNone)).map (projectRow df.cols cs) ∧
    o.insertValues = o.dfToInsert.map (buildInsertRow (raw.headD []) cs) ∧
    updateLoop raw (raw.headD []) cs df.cols key
      (existing_key_to_row (raw.headD []) key raw.tail) df.rows =
      .ok (o.updateRows, o.unchanged) := by
  simp only [reconcile] at h
  split at h
  case isFalse => exact Except.noConfusion h
  case isTrue hkey =>
  split at h
  case isTrue => exact Except.noConfusion h
  case isFalse hex =>
  split at h
  case isTrue => exact Except.noConfusion h
  case isFalse hemp =>
  split at h
  case isTrue => exact Except.noConfusion h
  case isFalse hcs =>
  split at h
  case h_1 => exact Except.noConfusion h
  case h_2 us c hloop =>
  simp only [Except.ok.injEq] at h
  rw [← h]
  refine ⟨hkey, hex, ?_, not_not.mp hcs, by simp [List.map_map], rfl, hloop⟩
  intro he
  subst he
  simp at hemp

/-! ## Claim C2 -/

/-- Claim C2: in every emitted update row, a cell whose header column is not
in the sync set keeps the original target row's value, and so does a cell of
a synced column whose new value is empty or missing (empty values never
overwrite); cells beyond the header's width (from over-long rows) are also
untouched.  Positions past the original row's end read as the empty string,
matching the raw-row model where an absent cell is empty. -/
theorem c2_update_row_frame {raw : List (List String)} {df : DataFrame}
    {key : String} {cs : List String} {o : Outcome} {n : Nat}
    {urow : List String} (h : reconcile raw df key cs = .ok o)
    (hmem : (n, urow) ∈ o.updateRows) :
    ∃ r ∈ df.rows,
      (∀ p, ∀ hp : p < (raw.headD []).length,
        ((raw.headD []).get ⟨p, hp⟩ ∉ cs ∨
          syncString (rowGet df.cols r ((raw.headD []).get ⟨p, hp⟩)) = "") →
        urow.get? p = some ((((raw.get? (n - 1)).getD []).get? p).getD "")) ∧
      (∀ p, (raw.headD []).length ≤ p →
        urow.get? p = ((raw.get? (n - 1)).getD []).get? p) := by
  obtain ⟨_, _, _, _, _, _, hloop⟩ := reconcile_ok_elim h
  obtain ⟨r, hr, n2, hn2, hpu⟩ := updateLoop_mem hloop hmem
  obtain ⟨urow0, hAS, hu⟩ := processUpdate_ok_some hpu
  simp only [Prod.mk.injEq] at hu
  obtain ⟨hn, hurow⟩ := hu
  subst hn
  subst hurow
  have hlen : urow0.length = ((raw.get? (n - 1)).getD []).length :=
    applySync_length cs _ _ hAS
  refine ⟨r, hr, ?_, ?_⟩
  · intro p hp hcond
    have hpres : urow0.get? p = ((raw.get? (n - 1)).getD []).get? p := by
      refine applySync_preserve cs ?_ _ _ hAS
      intro col hcol hmc
      have hgetp : (raw.headD []).get? p =
          some ((raw.headD []).get ⟨p, hp⟩) := List.get?_eq_get hp
      have hcolp : col = (raw.headD []).get ⟨p, hp⟩ := by
        have := headerMap_get? hmc
        rw [hgetp] at this
        exact (Option.some_injective _ this).symm
      rcases hcond with hc | hc
      · exact absurd hcol (by rwa [hcolp])
      · left
        rw [hcolp]
        exact hc
    by_cases hplen : p < urow0.length
    · rw [padRow_get?_lt hplen, hpres]
      rw [List.get?_eq_get (by omega : p < ((raw.get? (n - 1)).getD []).length)]
      rfl
    · rw [padRow_get?_pad (by omega) hp]
      rw [List.get?_len_le (by omega : ((raw.get? (n - 1)).getD []).length ≤ p)]
      rfl
  · intro p hple
    have hpres : urow0.get? p = ((raw.get? (n - 1)).getD []).get? p := by
      refine applySync_preserve cs ?_ _ _ hAS
      intro col hcol hmc
      exact absurd (headerMap_lt hmc) (by omega)
    rw [padRow_get?_ge hple, hpres]

/-- Witness for `c2_update_row_frame`: in the duplicate-key sheet the record
`{ID:"1", V:"b"}` updates row 2; with a sync set of just `["V"]` the `ID`
cell (unsynced) keeps the original value. -/
theorem c2_update_row_frame_witness :
    reconcile rawDup ⟨["ID", "V"], [[some "1", some "b"]]⟩ "ID" ["V"] =
      .ok ⟨[], [], [(2, ["1", "b"])], 0⟩ ∧
    ((2, ["1", "b"]) : Nat × List String) ∈ [((2 : Nat), ["1", "b"])] ∧
    (∃ r ∈ (⟨["ID", "V"], [[some "1", some "b"]]⟩ : DataFrame).rows,
      (∀ p, ∀ hp : p < (rawDup.headD []).length,
        ((rawDup.headD []).get ⟨p, hp⟩ ∉ ["V"] ∨
          syncString (rowGet (⟨["ID", "V"], [[some "1", some "b"]]⟩ :
            DataFrame).cols r ((rawDup.headD []).get ⟨p, hp⟩)) = "") →
        (["1", "b"] : List String).get? p =
          some ((((rawDup.get? (2 - 1)).getD []).get? p).getD "")) ∧
      (∀ p, (rawDup.headD []).length ≤ p →
        (["1", "b"] : List String).get? p =
          ((rawDup.get? (2 - 1)).getD []).get? p)) := by
  have h1 : reconcile rawDup ⟨["ID", "V"], [[some "1", some "b"]]⟩ "ID" ["V"] =
      .ok ⟨[], [], [(2, ["1", "b"])], 0⟩ := rfl
  have h2 : ((2, ["1", "b"]) : Nat × List String) ∈
      (⟨[], [], [(2, ["1", "b"])], 0⟩ : Outcome).updateRows := by simp
  exact ⟨h1, by simp, c2_update_row_frame h1 h2⟩

/-! ## Claim C5, amended -/

/-- Claim C5, amended: every emitted update row has length
`max (header length) (original row length)` — rows shorter than the header
are padded with empty strings to exactly the header width, while rows longer
than the header keep their surplus cells (no truncation happens). -/
theorem c5_row_width_amended {raw : List (List String)} {df : DataFrame}
    {key : String} {cs : List String} {o : Outcome} {n : Nat}
    {urow : List String} (h : reconcile raw df key cs = .ok o)
    (hmem : (n, urow) ∈ o.updateRows) :
    urow.length =
      max (raw.headD []).length ((raw.get? (n - 1)).getD []).length := by
  obtain ⟨_, _, _, _, _, _, hloop⟩ := reconcile_ok_elim h
  obtain ⟨r, hr, n2, hn2, hpu⟩ := updateLoop_mem hloop hmem
  obtain ⟨urow0, hAS, hu⟩ := processUpdate_ok_some hpu
  simp only [Prod.mk.injEq] at hu
  obtain ⟨hn, hurow⟩ := hu
  subst hn
  subst hurow
  rw [padRow_length, applySync_length cs _ _ hAS]

/-- Witness for `c5_row_width_amended` on the over-long row scenario:
`max 2 3 = 3`. -/
theorem c5_row_width_amended_witness :
    reconcile rawLong dfLong "ID" ["ID", "Name"] =
      .ok ⟨[], [], [(2, ["1", "Bo", "x"])], 0⟩ ∧
    ((2, ["1", "Bo", "x"]) : Nat × List String) ∈
      [((2 : Nat), ["1", "Bo", "x"])] ∧
    (["1", "Bo", "x"] : List String).length =
      max (rawLong.headD []).length ((rawLong.get? (2 - 1)).getD []).length := by
  have h1 : reconcile rawLong dfLong "ID" ["ID", "Name"] =
      .ok ⟨[], [], [(2, ["1", "Bo", "x"])], 0⟩ := rfl
  have h2 : ((2, ["1", "Bo", "x"]) : Nat × List String) ∈
      (⟨[], [], [(2, ["1", "Bo", "x"])], 0⟩ : Outcome).updateRows := by simp
  exact ⟨h1, by simp, c5_row_width_amended h1 h2⟩

/-! ## Claim C3, amended -/

theorem length_filter_split (p : α → Bool) (l : List α) :
    (l.filter p).length + (l.filter (fun a => ! p a)).length = l.length := by
  induction l with
  | nil => rfl
  | cons a t ih =>
    rcases hb : p a with _ | _
    · simp only [List.filter_cons, hb, Bool.not_false, if_true, if_false,
        Bool.false_eq_true, List.length_cons]
      omega
    · simp only [List.filter_cons, hb, Bool.not_true, if_true, if_false,
        Bool.false_eq_true, List.length_cons]
      omega

theorem updateLoop_count {raw : List (List String)}
    {header cs cols : List String} {key : String} {idx : String → Option Nat}
    (rows : List (List Cell)) :
    ∀ (us : List (Nat × List String)) (c : Nat),
      updateLoop raw header cs cols key idx rows = .ok (us, c) →
      us.length + c =
        (rows.filter (fun r =>
          ! (idx (matchKey cols key r)).isNone)).length := by
  induction rows with
  | nil =>
    intro us c h
    simp only [updateLoop, Except.ok.injEq, Prod.mk.injEq] at h
    simp [← h.1, ← h.2]
  | cons r rs ih =>
    intro us c h
    simp only [updateLoop] at h
    cases hidx : idx (matchKey cols key r) with
    | none =>
      simp only [hidx] at h
      rw [List.filter_cons]
      simp only [hidx, Option.isNone_none, Bool.not_true, if_false]
      exact ih us c h
    | some n =>
      simp only [hidx] at h
      cases hpu : processUpdate raw header cs cols r n with
      | error e =>
        simp only [hpu] at h
        exact Except.noConfusion h
      | ok res =>
        simp only [hpu] at h
        cases hloop : updateLoop raw header cs cols key idx rs with
        | error e =>
          simp only [hloop] at h
          exact Except.noConfusion h
        | ok uc =>
          rcases uc with ⟨us0, c0⟩
          simp only [hloop] at h
          rw [List.filter_cons]
          simp only [hidx, Option.isNone_some, Bool.not_false, if_true,
            List.length_cons]
          have hc := ih us0 c0 hloop
          cases res with
          | some v =>
            simp only [Except.ok.injEq, Prod.mk.injEq] at h
            rw [← h.1, ← h.2]
            simp only [List.length_cons]
            omega
          | none =>
            simp only [Except.ok.injEq, Prod.mk.injEq] at h
            rw [← h.1, ← h.2]
            omega

/-- Claim C3, amended: every uploaded record is accounted for by exactly one
of the three partitions — the sizes of Insert Set, Update Set and Unchanged
count always add up to the number of records — but records whose trimmed
match key is empty are NOT excluded: the blank key is never in the index, so
every such record lands in the Insert Set. -/
theorem c3_partition_amended {raw : List (List String)} {df : DataFrame}
    {key : String} {cs : List String} {o : Outcome}
    (h : reconcile raw df key cs = .ok o) :
    o.dfToInsert.length + o.updateRows.length + o.unchanged =
      df.rows.length ∧
    ∀ r ∈ df.rows, matchKey df.cols key r = "" →
      projectRow df.cols cs r ∈ o.dfToInsert := by
  obtain ⟨_, _, _, _, hins, _, hloop⟩ := reconcile_ok_elim h
  constructor
  · have h1 := updateLoop_count df.rows o.updateRows o.unchanged hloop
    have h2 := length_filter_split (fun r =>
      (existing_key_to_row (raw.headD []) key raw.tail
        (matchKey df.cols key r)).isNone) df.rows
    rw [hins, List.length_map]
    omega
  · intro r hr hmk
    rw [hins]
    refine List.mem_map_of_mem (projectRow df.cols cs) ?_
    rw [List.mem_filter]
    refine ⟨hr, ?_⟩
    rw [hmk, existing_key_to_row_empty]
    rfl

/-- Witness for `c3_partition_amended` on the empty-key scenario:
1 + 0 + 0 = 1 and the blank-keyed record sits in the Insert Set. -/
theorem c3_partition_amended_witness :
    reconcile rawHdrOnly dfEmptyKey "ID" ["ID"] =
      .ok ⟨[[some ""]], [[""]], [], 0⟩ ∧
    (([[some ""]] : List (List Cell)).length + ([] : List (Nat × List String)).length + 0 =
      dfEmptyKey.rows.length ∧
    ∀ r ∈ dfEmptyKey.rows, matchKey dfEmptyKey.cols "ID" r = "" →
      projectRow dfEmptyKey.cols ["ID"] r ∈ [[some ""]]) := by
  have h1 : reconcile rawHdrOnly dfEmptyKey "ID" ["ID"] =
      .ok ⟨[[some ""]], [[""]], [], 0⟩ := rfl
  exact ⟨h1, c3_partition_amended h1⟩

/-! ## List utilities for the idempotence proof -/

theorem headD_eq_get? (l : List (List String)) :
    l.headD [] = (l.get? 0).getD [] := by
  cases l <;> rfl

theorem headD_cons_tail {l : List (List String)} (h : l ≠ []) :
    l.headD [] :: l.tail = l := by
  cases l with
  | nil => exact absurd rfl h
  | cons a t => rfl

theorem tail_get? (l : List (List String)) (p : Nat) :
    l.tail.get? p = l.get? (p + 1) := by
  cases l <;> rfl

theorem nodup_get?_ne {m : List α} (h : m.Nodup) {i j : Nat} (hij : i < j)
    {a b : α} (ha : m.get? i = some a) (hb : m.get? j = some b) : a ≠ b := by
  induction m generalizing i j with
  | nil => exact absurd ha (by simp)
  | cons x t ih =>
    rcases List.nodup_cons.mp h with ⟨hx, ht⟩
    cases i with
    | zero =>
      have hax : x = a := by simpa using ha
      cases j with
      | zero => omega
      | succ j0 =>
        have hbt : b ∈ t := List.get?_mem (by simpa using hb)
        intro he
        refine hx ?_
        rw [hax, he]
        exact hbt
    | succ i0 =>
      cases j with
      | zero => omega
      | succ j0 =>
        refine ih ht ?_ (by simpa using ha) (by simpa using hb)
        omega

theorem foldl_set_length (updates : List (Nat × List String))
    (base : List (List String)) :
    (updates.foldl (fun acc nu => acc.set (nu.1 - 1) nu.2) base).length =
      base.length := by
  induction updates generalizing base with
  | nil => rfl
  | cons u t ih =>
    rw [List.foldl_cons, ih]
    simp

theorem foldl_set_get?_of_ne {updates : List (Nat × List String)} {q : Nat}
    (h : ∀ nu ∈ updates, nu.1 - 1 ≠ q) (base : List (List String)) :
    (updates.foldl (fun acc nu => acc.set (nu.1 - 1) nu.2) base).get? q =
      base.get? q := by
  induction updates generalizing base with
  | nil => rfl
  | cons u t ih =>
    rw [List.foldl_cons, ih (fun nu hnu => h nu (List.mem_cons_of_mem u hnu)),
      List.get?_set_ne _ _ (h u (List.mem_cons_self u t))]

theorem foldl_set_get?_mem {updates : List (Nat × List String)}
    {nu : Nat × List String} (hmem : nu ∈ updates)
    (hnodup : (updates.map (fun x => x.1)).Nodup)
    (hge : ∀ x ∈ updates, 2 ≤ x.1) {base : List (List String)}
    (hlt : nu.1 - 1 < base.length) :
    (updates.foldl (fun acc nv => acc.set (nv.1 - 1) nv.2) base).get?
      (nu.1 - 1) = some nu.2 := by
  induction updates generalizing base with
  | nil => simp at hmem
  | cons u t ih =>
    rw [List.map_cons, List.nodup_cons] at hnodup
    rw [List.foldl_cons]
    rcases List.mem_cons.mp hmem with he | he
    · subst he
      rw [foldl_set_get?_of_ne]
      · exact List.get?_set_eq_of_lt _ hlt
      · intro nv hnv hq
        have h1 : nv.1 ≠ nu.1 := by
          intro hx
          exact hnodup.1 (hx ▸ List.mem_map_of_mem (fun x => x.1) hnv)
        have h2 := hge nu (List.mem_cons_self nu t)
        have h3 := hge nv (List.mem_cons_of_mem nu hnv)
        omega
    · exact ih he hnodup.2 (fun x hx => hge x (List.mem_cons_of_mem u hx))
        (by simpa using hlt)

theorem enumFrom_append (k : Nat) (xs ys : List α) :
    enumFrom k (xs ++ ys) = enumFrom k xs ++ enumFrom (k + xs.length) ys := by
  induction xs generalizing k with
  | nil => simp [enumFrom]
  | cons a t ih =>
    show (k, a) :: enumFrom (k + 1) (t ++ ys) =
      (k, a) :: (enumFrom (k + 1) t ++ enumFrom (k + (a :: t).length) ys)
    rw [ih (k + 1), show k + (a :: t).length = k + 1 + t.length from by
      simp only [List.length_cons]; omega]

theorem buildIndexFrom_append (kcol : Nat) (acc : String → Option Nat)
    (xs ys : List (Nat × List String)) :
    buildIndexFrom kcol acc (xs ++ ys) =
      buildIndexFrom kcol (buildIndexFrom kcol acc xs) ys := by
  unfold buildIndexFrom
  rw [List.foldl_append]

theorem indexStep_congr {kcol : Nat} {r1 r2 : List String}
    (h : cellStr r1 kcol = cellStr r2 kcol) (acc : String → Option Nat)
    (k : Nat) : indexStep kcol acc (k, r1) = indexStep kcol acc (k, r2) := by
  unfold indexStep
  simp only [h]

theorem buildIndexFrom_congr {kcol : Nat} (d1 : List (List String)) :
    ∀ (d2 : List (List String)), d1.length = d2.length →
      (∀ p, cellStr ((d1.get? p).getD []) kcol =
        cellStr ((d2.get? p).getD []) kcol) →
      ∀ (k : Nat) (acc : String → Option Nat),
        buildIndexFrom kcol acc (enumFrom k d1) =
          buildIndexFrom kcol acc (enumFrom k d2) := by
  induction d1 with
  | nil =>
    intro d2 hlen _ k acc
    have : d2 = [] := by
      cases d2 with
      | nil => rfl
      | cons b t2 => simp at hlen
    subst this
    rfl
  | cons a t ih =>
    intro d2 hlen hcell k acc
    cases d2 with
    | nil => simp at hlen
    | cons b t2 =>
      show buildIndexFrom kcol (indexStep kcol acc (k, a)) (enumFrom (k + 1) t) =
        buildIndexFrom kcol (indexStep kcol acc (k, b)) (enumFrom (k + 1) t2)
      have hab : cellStr a kcol = cellStr b kcol := by
        have := hcell 0
        simpa using this
      rw [indexStep_congr hab acc k]
      refine ih t2 (by simpa using hlen) ?_ (k + 1) _
      intro p
      have := hcell (p + 1)
      simpa using this

theorem existing_key_to_row_eq {header : List String} {key : String}
    {kcol : Nat} (hk : headerMap header key = some kcol)
    (rows : List (List String)) :
    existing_key_to_row header key rows =
      buildIndexFrom kcol (fun _ => none) (enumFrom 2 rows) := by
  unfold existing_key_to_row
  rw [hk]

theorem existing_key_to_row_inj {header : List String} {key : String}
    {kcol : Nat} (hk : headerMap header key = some kcol)
    {rows : List (List String)} {v1 v2 : String} {p : Nat}
    (h1 : existing_key_to_row header key rows v1 = some p)
    (h2 : existing_key_to_row header key rows v2 = some p) : v1 = v2 := by
  obtain ⟨_, j1, row1, hj1, hc1, hp1⟩ := existing_key_to_row_sound hk h1
  obtain ⟨_, j2, row2, hj2, hc2, hp2⟩ := existing_key_to_row_sound hk h2
  have hj : j1 = j2 := by omega
  subst hj
  rw [hj1] at hj2
  injection hj2 with hj2
  rw [← hc1, ← hc2, hj2]

/-! ## Cells of the rows built for insertion -/

theorem zip_map_self (cs : List String) (f : String → Cell) :
    cs.zip (cs.map f) = cs.map (fun c => (c, f c)) := by
  induction cs with
  | nil => rfl
  | cons c t ih => simp [ih]

theorem buildInsertRow_eq_foldl (header cs dfCols : List String)
    (r : List Cell) :
    buildInsertRow header cs (projectRow dfCols cs r) =
      cs.foldl (fun acc c => insStep header acc (c, rowGet dfCols r c))
        (List.replicate header.length "") := by
  unfold buildInsertRow projectRow
  rw [zip_map_self, List.foldl_map]

theorem insStep_length (header : List String) (acc : List String)
    (cv : String × Cell) : (insStep header acc cv).length = acc.length := by
  unfold insStep
  cases hm : headerMap header cv.1 <;> simp

theorem insFold_stable {header : List String} {g : String → Cell} {ci : Nat}
    {colw : String} (hmw : headerMap header colw = some ci)
    (csl : List String) :
    ∀ acc : List String, acc.get? ci = some ((g colw).getD "") →
      (csl.foldl (fun acc c => insStep header acc (c, g c)) acc).get? ci =
        some ((g colw).getD "") := by
  induction csl with
  | nil =>
    intro acc h
    exact h
  | cons c t ih =>
    intro acc h
    rw [List.foldl_cons]
    refine ih _ ?_
    unfold insStep
    cases hm : headerMap header c with
    | none => exact h
    | some i =>
      simp only []
      by_cases hic : i = ci
      · subst hic
        have hcc : c = colw := by
          have h1 := headerMap_get? hm
          have h2 := headerMap_get? hmw
          rw [h1] at h2
          exact Option.some_injective _ h2
        subst hcc
        obtain ⟨hlt, _⟩ := List.get?_eq_some.mp h
        exact List.get?_set_eq_of_lt _ hlt
      · rw [List.get?_set_ne _ _ hic]
        exact h

theorem insFold_mem {header : List String} {g : String → Cell} {ci : Nat}
    {colw : String} (hmw : headerMap header colw = some ci)
    (csl : List String) (hcol : colw ∈ csl) :
    ∀ acc : List String, acc.length = header.length →
      (csl.foldl (fun acc c => insStep header acc (c, g c)) acc).get? ci =
        some ((g colw).getD "") := by
  induction csl with
  | nil => simp at hcol
  | cons c t ih =>
    intro acc hlen
    rw [List.foldl_cons]
    rcases List.mem_cons.mp hcol with he | he
    · subst he
      refine insFold_stable hmw t _ ?_
      unfold insStep
      rw [hmw]
      exact List.get?_set_eq_of_lt _ (by rw [hlen]; exact headerMap_lt hmw)
    · exact ih he _ (by rw [insStep_length]; exact hlen)

theorem buildInsertRow_get? {header cs dfCols : List String} {r : List Cell}
    {col : String} {ci : Nat} (hcol : col ∈ cs)
    (hm : headerMap header col = some ci) :
    (buildInsertRow header cs (projectRow dfCols cs r)).get? ci =
      some ((rowGet dfCols r col).getD "") := by
  rw [buildInsertRow_eq_foldl]
  exact insFold_mem hm cs hcol _ (by simp)

/-! ## More facts about `updateLoop` -/

/-- Classification: in a successful loop every record with an indexed key was
processed, yielding either an emitted update entry or an unchanged tick. -/
theorem updateLoop_classify {raw : List (List String)}
    {header cs cols : List String} {key : String} {idx : String → Option Nat}
    (rows : List (List Cell)) :
    ∀ (us : List (Nat × List String)) (c : Nat),
      updateLoop raw header cs cols key idx rows = .ok (us, c) →
      ∀ r ∈ rows, ∀ n, idx (matchKey cols key r) = some n →
        (∃ u, processUpdate raw header cs cols r n = .ok (some u) ∧ u ∈ us) ∨
        processUpdate raw header cs cols r n = .ok none := by
  induction rows with
  | nil =>
    intro us c h r hr
    simp at hr
  | cons r0 rs ih =>
    intro us c h r hr n hidx
    simp only [updateLoop] at h
    rcases List.mem_cons.mp hr with he | he
    · subst he
      simp only [hidx] at h
      cases hpu : processUpdate raw header cs cols r n with
      | error e =>
        simp only [hpu] at h
        exact Except.noConfusion h
      | ok res =>
        simp only [hpu] at h
        cases hloop : updateLoop raw header cs cols key idx rs with
        | error e =>
          simp only [hloop] at h
          exact Except.noConfusion h
        | ok uc =>
          rcases uc with ⟨us0, c0⟩
          simp only [hloop] at h
          cases res with
          | some v =>
            simp only [Except.ok.injEq, Prod.mk.injEq] at h
            exact Or.inl ⟨v, rfl, by rw [← h.1]; exact List.mem_cons_self v us0⟩
          | none => exact Or.inr rfl
    · cases hidx0 : idx (matchKey cols key r0) with
      | none =>
        simp only [hidx0] at h
        exact ih us c h r he n hidx
      | some n0 =>
        simp only [hidx0] at h
        cases hpu0 : processUpdate raw header cs cols r0 n0 with
        | error e =>
          simp only [hpu0] at h
          exact Except.noConfusion h
        | ok res0 =>
          simp only [hpu0] at h
          cases hloop : updateLoop raw header cs cols key idx rs with
          | error e =>
            simp only [hloop] at h
            exact Except.noConfusion h
          | ok uc =>
            rcases uc with ⟨us0, c0⟩
            simp only [hloop] at h
            cases res0 with
            | some v =>
              simp only [Except.ok.injEq, Prod.mk.injEq] at h
              rcases ih us0 c0 hloop r he n hidx with ⟨u, hu1, hu2⟩ | hnone
              · exact Or.inl ⟨u, hu1,
                  by rw [← h.1]; exact List.mem_cons_of_mem v hu2⟩
              · exact Or.inr hnone
            | none =>
              simp only [Except.ok.injEq, Prod.mk.injEq] at h
              rcases ih us0 c0 hloop r he n hidx with ⟨u, hu1, hu2⟩ | hnone
              · exact Or.inl ⟨u, hu1, by rw [← h.1]; exact hu2⟩
              · exact Or.inr hnone

/-- With an injective index and pairwise distinct match keys, the emitted
update entries carry pairwise distinct target row positions. -/
theorem updateLoop_nodup {raw : List (List String)}
    {header cs cols : List String} {key : String} {idx : String → Option Nat}
    (hinj : ∀ v1 v2 p, idx v1 = some p → idx v2 = some p → v1 = v2)
    (rows : List (List Cell)) :
    ∀ (us : List (Nat × List String)) (c : Nat),
      updateLoop raw header cs cols key idx rows = .ok (us, c) →
      (rows.map (matchKey cols key)).Nodup →
      (us.map (fun x => x.1)).Nodup := by
  induction rows with
  | nil =>
    intro us c h _
    simp only [updateLoop, Except.ok.injEq, Prod.mk.injEq] at h
    rw [← h.1]
    simp
  | cons r rs ih =>
    intro us c h hnd
    rw [List.map_cons, List.nodup_cons] at hnd
    simp only [updateLoop] at h
    cases hidx : idx (matchKey cols key r) with
    | none =>
      simp only [hidx] at h
      exact ih us c h hnd.2
    | some n =>
      simp only [hidx] at h
      cases hpu : processUpdate raw header cs cols r n with
      | error e =>
        simp only [hpu] at h
        exact Except.noConfusion h
      | ok res =>
        simp only [hpu] at h
        cases hloop : updateLoop raw header cs cols key idx rs with
        | error e =>
          simp only [hloop] at h
          exact Except.noConfusion h
        | ok uc =>
          rcases uc with ⟨us0, c0⟩
          simp only [hloop] at h
          have ih0 := ih us0 c0 hloop hnd.2
          cases res with
          | none =>
            simp only [Except.ok.injEq, Prod.mk.injEq] at h
            rw [← h.1]
            exact ih0
          | some v =>
            simp only [Except.ok.injEq, Prod.mk.injEq] at h
            rw [← h.1, List.map_cons, List.nodup_cons]
            refine ⟨?_, ih0⟩
            obtain ⟨urow0, _, hveq⟩ := processUpdate_ok_some hpu
            intro hmem
            rcases List.mem_map.mp hmem with ⟨u0, hu0, hfst⟩
            obtain ⟨r2, hr2, n2, hidx2, hpu2⟩ := updateLoop_mem hloop hu0
            obtain ⟨urow2, _, hueq2⟩ := processUpdate_ok_some hpu2
            have hn2 : u0.1 = n2 := by rw [hueq2]
            have hveqn : v.1 = n := by rw [hveq]
            rw [hveqn] at hfst
            rw [hfst] at hn2
            rw [← hn2] at hidx2
            have hkeq := hinj _ _ _ hidx2 hidx
            exact hnd.1 (hkeq ▸ List.mem_map_of_mem (matchKey cols key) hr2)

/-- When every record's indexed diff comes back unchanged, the loop returns
no update rows and counts every record. -/
theorem updateLoop_all {raw : List (List String)}
    {header cs cols : List String} {key : String} {idx : String → Option Nat}
    (rows : List (List Cell))
    (hall : ∀ r ∈ rows, ∃ n, idx (matchKey cols key r) = some n ∧
      processUpdate raw header cs cols r n = .ok none) :
    updateLoop raw header cs cols key idx rows = .ok ([], rows.length) := by
  induction rows with
  | nil => rfl
  | cons r rs ih =>
    obtain ⟨n, hidx, hpu⟩ := hall r (List.mem_cons_self r rs)
    have ht := ih (fun r2 h2 => hall r2 (List.mem_cons_of_mem r h2))
    simp only [updateLoop, hidx, hpu, ht, List.length_cons]

theorem processUpdate_eq_none {raw : List (List String)}
    {header cs cols : List String} {r : List Cell} {n : Nat}
    (h : applySync cols header ((raw.get? (n - 1)).getD []) r cs
      ((raw.get? (n - 1)).getD [], false) =
      .ok ((raw.get? (n - 1)).getD [], false)) :
    processUpdate raw header cs cols r n = .ok none := by
  simp only [processUpdate, h]

theorem cellStr_congr {r1 r2 : List String} {i : Nat}
    (h : r1.get? i = r2.get? i) : cellStr r1 i = cellStr r2 i := by
  unfold cellStr
  rw [h]

theorem cellStr_len_le {row : List String} {i : Nat} (h : row.length ≤ i) :
    cellStr row i = "" := by
  unfold cellStr
  rw [List.get?_len_le h]
  rfl

/-! ## Claim C8, amended -/

/-- Claim C8, amended: applying a first run's outcome and reconciling the
same records again yields no inserts, no updates, and an unchanged count
equal to the number of records — provided every record carries a present,
non-blank key value, the match keys are pairwise distinct, and the key
column occurs both in the sync column set and in the target header.
(Without these side conditions the second run can re-insert or re-update:
see the counterexample.) -/
theorem c8_idempotence_amended {raw : List (List String)} {df : DataFrame}
    {key : String} {cs : List String} {o1 : Outcome}
    (h0 : reconcile raw df key cs = .ok o1)
    (hkeys : ∀ r ∈ df.rows, (rowGet df.cols r key).isSome ∧
      matchKey df.cols key r ≠ "")
    (hnodup : (df.rows.map (matchKey df.cols key)).Nodup)
    (hsync : key ∈ cs) (hhdr : key ∈ raw.headD []) :
    reconcile (applyOutcome raw o1) df key cs =
      .ok ⟨[], [], [], df.rows.length⟩ := by
  obtain ⟨hkey, hex, hne, hcs, hins, hinsv, hloop1⟩ := reconcile_ok_elim h0
  obtain ⟨kcol, hk⟩ := headerMap_isSome_of_mem hhdr
  have hrawpos : 0 < raw.length := List.length_pos.mpr hne
  have hrawlen : raw.length = raw.tail.length + 1 := by
    cases raw with
    | nil => exact absurd rfl hne
    | cons a t => simp
  have hinj : ∀ v1 v2 p,
      existing_key_to_row (raw.headD []) key raw.tail v1 = some p →
      existing_key_to_row (raw.headD []) key raw.tail v2 = some p →
      v1 = v2 := fun v1 v2 p h1 h2 => existing_key_to_row_inj hk h1 h2
  have hposnodup :=
    updateLoop_nodup hinj df.rows o1.updateRows o1.unchanged hloop1 hnodup
  have hbounds : ∀ u ∈ o1.updateRows, 2 ≤ u.1 ∧ u.1 - 1 < raw.length := by
    intro u hu
    obtain ⟨r, hr, n, hidx, hpu⟩ := updateLoop_mem hloop1 hu
    obtain ⟨urow0, hAS, hueq⟩ := processUpdate_ok_some hpu
    have hu1 : u.1 = n := by rw [hueq]
    obtain ⟨hvne, j, row, hj, hcell, hp⟩ := existing_key_to_row_sound hk hidx
    have hjlt : j < raw.tail.length := by
      by_contra hge
      rw [List.get?_len_le (by omega)] at hj
      exact Option.noConfusion hj
    omega
  have hukey : ∀ u ∈ o1.updateRows, ∃ r ∈ df.rows,
      existing_key_to_row (raw.headD []) key raw.tail
        (matchKey df.cols key r) = some u.1 ∧
      cellStr u.2 kcol = matchKey df.cols key r ∧
      cellStr ((raw.get? (u.1 - 1)).getD []) kcol =
        matchKey df.cols key r := by
    intro u hu
    obtain ⟨r, hr, n, hidx, hpu⟩ := updateLoop_mem hloop1 hu
    obtain ⟨urow0, hAS, hueq⟩ := processUpdate_ok_some hpu
    have hu1 : u.1 = n := by rw [hueq]
    have hu2 : u.2 = padRow (raw.headD []).length urow0 := by rw [hueq]
    obtain ⟨hvne, j, row, hj, hcell, hp⟩ := existing_key_to_row_sound hk hidx
    have hcur : (raw.get? (n - 1)).getD [] = row := by
      rw [show n - 1 = j + 1 from by omega, ← tail_get?, hj]
      rfl
    have hcurkey : cellStr ((raw.get? (n - 1)).getD []) kcol =
        matchKey df.cols key r := by
      rw [hcur, hcell]
    have hmkne := (hkeys r hr).2
    have hkcollt : kcol < ((raw.get? (n - 1)).getD []).length := by
      by_contra hge
      rw [cellStr_len_le (by omega)] at hcurkey
      exact hmkne hcurkey.symm
    have hpres : urow0.get? kcol = ((raw.get? (n - 1)).getD []).get? kcol := by
      refine applySync_preserve cs ?_ _ _ hAS
      intro col hcol hmc
      have hck : col = key := by
        have h1 := headerMap_get? hmc
        have h2 := headerMap_get? hk
        rw [h1] at h2
        exact Option.some_injective _ h2
      subst hck
      obtain ⟨s, hs⟩ := Option.isSome_iff_exists.mp (hkeys r hr).1
      right
      rw [hcurkey]
      unfold matchKey
      rw [hs]
      rfl
    have hulen : urow0.length = ((raw.get? (n - 1)).getD []).length :=
      applySync_length cs _ _ hAS
    have hu2key : cellStr u.2 kcol = matchKey df.cols key r := by
      rw [hu2]
      refine Eq.trans (cellStr_congr ?_) hcurkey
      rw [padRow_get?_lt (by omega), hpres]
    refine ⟨r, hr, ?_, hu2key, ?_⟩
    · rw [hu1]
      exact hidx
    · rw [hu1]
      exact hcurkey
  have happly : applyOutcome raw o1 =
      o1.updateRows.foldl (fun acc nu => acc.set (nu.1 - 1) nu.2)
        (raw ++ o1.insertValues) := rfl
  have hlen2 : (applyOutcome raw o1).length =
      raw.length + o1.insertValues.length := by
    rw [happly, foldl_set_length, List.length_append]
  have hget0 : (applyOutcome raw o1).get? 0 = raw.get? 0 := by
    have hno : ∀ nu ∈ o1.updateRows, nu.1 - 1 ≠ 0 := by
      intro nu hnu
      have := (hbounds nu hnu).1
      omega
    rw [happly, foldl_set_get?_of_ne hno, List.get?_append hrawpos]
  have hh2 : (applyOutcome raw o1).headD [] = raw.headD [] := by
    rw [headD_eq_get?, headD_eq_get?, hget0]
  have hregion1 : ∀ p, p + 1 < raw.length →
      cellStr (((applyOutcome raw o1).get? (p + 1)).getD []) kcol =
      cellStr ((raw.get? (p + 1)).getD []) kcol := by
    intro p hp
    by_cases hw : ∃ u ∈ o1.updateRows, u.1 - 1 = p + 1
    · obtain ⟨u, hu, hup⟩ := hw
      have hwrite : (applyOutcome raw o1).get? (p + 1) = some u.2 := by
        rw [← hup, happly]
        refine foldl_set_get?_mem hu hposnodup
          (fun x hx => (hbounds x hx).1) ?_
        rw [List.length_append]
        have := (hbounds u hu).2
        omega
      obtain ⟨r, hr, hidx, hk1, hk2⟩ := hukey u hu
      rw [hwrite]
      rw [show ((some u.2).getD ([] : List String)) = u.2 from rfl, hk1, ← hup]
      exact hk2.symm
    · push_neg at hw
      rw [happly, foldl_set_get?_of_ne hw, List.get?_append (by omega)]
  have hregion2 : ∀ j, (applyOutcome raw o1).get? (raw.length + j) =
      o1.insertValues.get? j := by
    intro j
    have hno : ∀ nu ∈ o1.updateRows, nu.1 - 1 ≠ raw.length + j := by
      intro nu hnu
      have := (hbounds nu hnu).2
      omega
    rw [happly, foldl_set_get?_of_ne hno,
      List.get?_append_right (by omega)]
    congr 1
    omega
  have hdlen : (applyOutcome raw o1).tail.length =
      raw.tail.length + o1.insertValues.length := by
    rw [List.length_tail, hlen2]
    omega
  have hL : raw.tail.length ≤ (applyOutcome raw o1).tail.length := by omega
  have hsplit : (applyOutcome raw o1).tail =
      (applyOutcome raw o1).tail.take raw.tail.length ++ o1.insertValues := by
    refine List.ext ?_
    intro p
    by_cases hp : p < raw.tail.length
    · rw [List.get?_append (by rw [List.length_take]; omega),
        List.get?_take hp]
    · rw [List.get?_append_right (by rw [List.length_take]; omega),
        List.length_take, min_eq_left hL, tail_get?,
        show p + 1 = raw.length + (p - raw.tail.length) from by omega]
      exact hregion2 _
  have hfrontlen :
      ((applyOutcome raw o1).tail.take raw.tail.length).length =
        raw.tail.length := by
    rw [List.length_take]
    omega
  have hfrontcell : ∀ p,
      cellStr ((((applyOutcome raw o1).tail.take raw.tail.length).get?
        p).getD []) kcol = cellStr ((raw.tail.get? p).getD []) kcol := by
    intro p
    by_cases hp : p < raw.tail.length
    · rw [List.get?_take hp, tail_get?, tail_get?]
      exact hregion1 p (by omega)
    · rw [List.get?_len_le (by rw [hfrontlen]; omega),
        List.get?_len_le (by omega)]
  have hidx2split : existing_key_to_row (raw.headD []) key
      (applyOutcome raw o1).tail =
      buildIndexFrom kcol
        (existing_key_to_row (raw.headD []) key raw.tail)
        (enumFrom (2 + raw.tail.length) o1.insertValues) := by
    rw [existing_key_to_row_eq hk, existing_key_to_row_eq hk]
    conv_lhs => rw [hsplit]
    rw [enumFrom_append, buildIndexFrom_append, hfrontlen,
      buildIndexFrom_congr _ raw.tail hfrontlen hfrontcell 2 _]
  have hinsv2 : o1.insertValues = (df.rows.filter (fun r =>
      (existing_key_to_row (raw.headD []) key raw.tail
        (matchKey df.cols key r)).isNone)).map
      (fun r => buildInsertRow (raw.headD []) cs
        (projectRow df.cols cs r)) := by
    rw [hinsv, hins, List.map_map]
    rfl
  have hbirkey : ∀ r ∈ df.rows,
      cellStr (buildInsertRow (raw.headD []) cs
        (projectRow df.cols cs r)) kcol = matchKey df.cols key r := by
    intro r hr
    obtain ⟨s, hs⟩ := Option.isSome_iff_exists.mp (hkeys r hr).1
    unfold cellStr
    rw [buildInsertRow_get? hsync hk, hs]
    unfold matchKey
    rw [hs]
    rfl
  have hmain : ∀ r ∈ df.rows, ∃ n2,
      existing_key_to_row ((applyOutcome raw o1).headD []) key
        (applyOutcome raw o1).tail (matchKey df.cols key r) = some n2 ∧
      processUpdate (applyOutcome raw o1)
        ((applyOutcome raw o1).headD []) cs df.cols r n2 = .ok none := by
    intro r hr
    rw [hh2]
    cases hc : existing_key_to_row (raw.headD []) key raw.tail
        (matchKey df.cols key r) with
    | some n =>
      have hnotins : ∀ pr ∈ enumFrom (2 + raw.tail.length) o1.insertValues,
          cellStr pr.2 kcol ≠ matchKey df.cols key r := by
        intro pr hpr
        have hmem := enumFrom_snd_mem hpr
        rw [hinsv2] at hmem
        rcases List.mem_map.mp hmem with ⟨r2, hr2mem, hr2eq⟩
        rcases List.mem_filter.mp hr2mem with ⟨hr2rows, hr2none⟩
        rw [← hr2eq, hbirkey r2 hr2rows]
        intro heq
        rw [heq, hc] at hr2none
        simp at hr2none
      have hidx2 : existing_key_to_row (raw.headD []) key
          (applyOutcome raw o1).tail (matchKey df.cols key r) = some n := by
        rw [hidx2split, buildIndexFrom_notin hnotins]
        exact hc
      refine ⟨n, hidx2, ?_⟩
      have h2n : 2 ≤ n ∧ n - 1 < raw.length := by
        obtain ⟨-, j, row, hj, -, hp⟩ := existing_key_to_row_sound hk hc
        have : j < raw.tail.length := by
          by_contra hge
          rw [List.get?_len_le (by omega)] at hj
          exact Option.noConfusion hj
        omega
      rcases updateLoop_classify df.rows _ _ hloop1 r hr n hc with
        ⟨u, hpu, humem⟩ | hpnone
      · obtain ⟨urow0, hAS1, hueq⟩ := processUpdate_ok_some hpu
        have hu1 : u.1 = n := by rw [hueq]
        have hu2 : u.2 = padRow (raw.headD []).length urow0 := by rw [hueq]
        have hcur2 : (applyOutcome raw o1).get? (n - 1) = some u.2 := by
          rw [← hu1, happly]
          refine foldl_set_get?_mem humem hposnodup
            (fun x hx => (hbounds x hx).1) ?_
          rw [List.length_append]
          have := (hbounds u humem).2
          omega
        have hlen1 : urow0.length = ((raw.get? (n - 1)).getD []).length :=
          applySync_length cs _ _ hAS1
        have hcond : ∀ col ∈ cs, ∀ ci,
            headerMap (raw.headD []) col = some ci →
            syncString (rowGet df.cols r col) = "" ∨
            syncString (rowGet df.cols r col) =
              cellStr (((applyOutcome raw o1).get? (n - 1)).getD []) ci := by
          intro col hcol ci hmci
          by_cases hsv0 : syncString (rowGet df.cols r col) = ""
          · exact Or.inl hsv0
          have hwritten : ∀ hw : urow0.get? ci =
              some (syncString (rowGet df.cols r col)),
              syncString (rowGet df.cols r col) =
                cellStr (((applyOutcome raw o1).get? (n - 1)).getD []) ci := by
            intro hw
            have hlt : ci < urow0.length := (List.get?_eq_some.mp hw).1
            rw [hcur2]
            rw [show ((some u.2).getD ([] : List String)) = u.2 from rfl]
            unfold cellStr
            rw [hu2, padRow_get?_lt hlt, hw]
            rw [show ((some (syncString (rowGet df.cols r col))).getD "") =
              syncString (rowGet df.cols r col) from rfl]
            exact (syncString_strip _).symm
          rcases applySync_guard cs _ _ hAS1 col hcol ci hmci with h1 | h1 | h1
          · exact Or.inl h1
          · rcases applySync_cells (p := ci) cs _ _ hAS1 with
              h2 | ⟨col2, hm2, hsv2, h2⟩
            · by_cases hlt : ci < urow0.length
              · right
                rw [hcur2]
                rw [show ((some u.2).getD ([] : List String)) = u.2 from rfl]
                have hcells : u.2.get? ci =
                    ((raw.get? (n - 1)).getD []).get? ci := by
                  rw [hu2, padRow_get?_lt hlt, h2]
                rw [cellStr_congr hcells]
                exact h1
              · exfalso
                rw [cellStr_len_le (by omega)] at h1
                exact hsv0 h1
            · have hcc : col2 = col := by
                have ha := headerMap_get? hm2
                have hb := headerMap_get? hmci
                rw [ha] at hb
                exact Option.some_injective _ hb
              rw [hcc] at h2
              exact Or.inr (hwritten h2)
          · exact Or.inr (hwritten h1)
        have hnoch := applySync_nochange cs hcond
          ((((applyOutcome raw o1).get? (n - 1)).getD []), false)
        exact processUpdate_eq_none hnoch
      · have hASold := processUpdate_ok_none hpnone
        obtain ⟨-, hguards⟩ := applySync_false cs
          (((raw.get? (n - 1)).getD []), false) _ hASold
        have hnowrite : ∀ nu ∈ o1.updateRows, nu.1 - 1 ≠ n - 1 := by
          intro nu hnu hqe
          have hge := (hbounds nu hnu).1
          obtain ⟨r2, hr2, n2, hidx2b, hpu2⟩ := updateLoop_mem hloop1 hnu
          obtain ⟨urow2, -, hueq2⟩ := processUpdate_ok_some hpu2
          have hnu1 : nu.1 = n2 := by rw [hueq2]
          have hnn : n2 = n := by omega
          rw [hnn] at hidx2b
          have hkeq := hinj _ _ _ hidx2b hc
          have hrr := List.inj_on_of_nodup_map hnodup hr2 hr hkeq
          rw [hrr, hnn] at hpu2
          rw [hpnone] at hpu2
          simp at hpu2
        have hcur2 : (applyOutcome raw o1).get? (n - 1) =
            raw.get? (n - 1) := by
          rw [happly, foldl_set_get?_of_ne hnowrite,
            List.get?_append (by omega)]
        have hcond : ∀ col ∈ cs, ∀ ci,
            headerMap (raw.headD []) col = some ci →
            syncString (rowGet df.cols r col) = "" ∨
            syncString (rowGet df.cols r col) =
              cellStr (((applyOutcome raw o1).get? (n - 1)).getD []) ci := by
          intro col hcol ci hci
          rw [hcur2]
          exact hguards col hcol ci hci
        have hnoch := applySync_nochange cs hcond
          ((((applyOutcome raw o1).get? (n - 1)).getD []), false)
        exact processUpdate_eq_none hnoch
    | none =>
      have hrfil : r ∈ df.rows.filter (fun r =>
          (existing_key_to_row (raw.headD []) key raw.tail
            (matchKey df.cols key r)).isNone) := by
        refine List.mem_filter.mpr ⟨hr, ?_⟩
        rw [hc]
        rfl
      obtain ⟨j, hj⟩ := List.get?_of_mem hrfil
      have hinsget : o1.insertValues.get? j =
          some (buildInsertRow (raw.headD []) cs
            (projectRow df.cols cs r)) := by
        rw [hinsv2, List.get?_map, hj]
        rfl
      have hinsnodup : ((df.rows.filter (fun r =>
          (existing_key_to_row (raw.headD []) key raw.tail
            (matchKey df.cols key r)).isNone)).map
          (matchKey df.cols key)).Nodup :=
        List.Nodup.sublist (List.Sublist.map _ (List.filter_sublist _)) hnodup
      have hkeyne : cellStr (buildInsertRow (raw.headD []) cs
          (projectRow df.cols cs r)) kcol ≠ "" := by
        rw [hbirkey r hr]
        exact (hkeys r hr).2
      have hlast : ∀ j2 row2, j < j2 → o1.insertValues.get? j2 = some row2 →
          cellStr row2 kcol ≠ cellStr (buildInsertRow (raw.headD []) cs
            (projectRow df.cols cs r)) kcol := by
        intro j2 row2 hlt hget
        rw [hinsv2, List.get?_map] at hget
        cases hg2 : (df.rows.filter (fun r =>
            (existing_key_to_row (raw.headD []) key raw.tail
              (matchKey df.cols key r)).isNone)).get? j2 with
        | none =>
          rw [hg2] at hget
          simp at hget
        | some r2 =>
          rw [hg2] at hget
          have hget2 : buildInsertRow (raw.headD []) cs
              (projectRow df.cols cs r2) = row2 := by
            injection hget
          have hr2rows : r2 ∈ df.rows :=
            (List.mem_filter.mp (List.get?_mem hg2)).1
          rw [← hget2, hbirkey r2 hr2rows, hbirkey r hr]
          have hne2 := nodup_get?_ne hinsnodup hlt
            (by rw [List.get?_map, hj]; rfl)
            (by rw [List.get?_map, hg2]; rfl)
          exact hne2.symm
      have hidx2v : existing_key_to_row (raw.headD []) key
          (applyOutcome raw o1).tail (matchKey df.cols key r) =
          some (2 + raw.tail.length + j) := by
        rw [hidx2split]
        have hfin := buildIndexFrom_last hkeyne o1.insertValues
          (2 + raw.tail.length) j
          (existing_key_to_row (raw.headD []) key raw.tail) hinsget hlast
        rw [hbirkey r hr] at hfin
        exact hfin
      refine ⟨2 + raw.tail.length + j, hidx2v, ?_⟩
      have hcur2 : (applyOutcome raw o1).get? (2 + raw.tail.length + j - 1) =
          some (buildInsertRow (raw.headD []) cs
            (projectRow df.cols cs r)) := by
        rw [show 2 + raw.tail.length + j - 1 = raw.length + j from by omega,
          hregion2 j, hinsget]
      have hcond : ∀ col ∈ cs, ∀ ci,
          headerMap (raw.headD []) col = some ci →
          syncString (rowGet df.cols r col) = "" ∨
          syncString (rowGet df.cols r col) =
            cellStr (((applyOutcome raw o1).get?
              (2 + raw.tail.length + j - 1)).getD []) ci := by
        intro col hcol ci hci
        cases hv : rowGet df.cols r col with
        | none => exact Or.inl rfl
        | some s =>
          right
          rw [hcur2]
          rw [show ((some (buildInsertRow (raw.headD []) cs
            (projectRow df.cols cs r))).getD ([] : List String)) =
            buildInsertRow (raw.headD []) cs (projectRow df.cols cs r)
            from rfl]
          unfold cellStr
          rw [buildInsertRow_get? hcol hci, hv]
          rfl
      have hnoch := applySync_nochange cs hcond
        ((((applyOutcome raw o1).get?
          (2 + raw.tail.length + j - 1)).getD []), false)
      exact processUpdate_eq_none hnoch
  have hloop2 : updateLoop (applyOutcome raw o1)
      ((applyOutcome raw o1).headD []) cs df.cols key
      (existing_key_to_row ((applyOutcome raw o1).headD []) key
        (applyOutcome raw o1).tail) df.rows =
      .ok ([], df.rows.length) :=
    updateLoop_all df.rows hmain
  have hfilter2 : df.rows.filter (fun r =>
      (existing_key_to_row ((applyOutcome raw o1).headD []) key
        (applyOutcome raw o1).tail (matchKey df.cols key r)).isNone) = [] := by
    rw [List.filter_eq_nil]
    intro r hr
    obtain ⟨n2, hidx2, -⟩ := hmain r hr
    rw [hidx2]
    simp
  have hlen2pos : 0 < (applyOutcome raw o1).length := by omega
  simp only [reconcile]
  rw [if_pos hkey]
  rw [if_neg (show ¬ (2 ≤ (applyOutcome raw o1).length ∧
      key ∉ (applyOutcome raw o1).headD []) from by
    intro hx
    rw [hh2] at hx
    exact hx.2 hhdr)]
  rw [if_neg (show ¬ ((applyOutcome raw o1).isEmpty = true) from by
    intro hx
    rw [List.isEmpty_iff] at hx
    rw [hx] at hlen2pos
    simp at hlen2pos)]
  rw [if_neg (not_not_intro hcs)]
  rw [hloop2]
  rw [hfilter2]
  rfl

/-- Witness for `c8_idempotence_amended`: Scenario A with all three columns
synced (so the key is synced) is idempotent — the second run inserts and
updates nothing and counts both records unchanged. -/
theorem c8_idempotence_amended_witness :
    reconcile rawScenA dfScenA "ID" ["ID", "Name", "Score"] =
      .ok ⟨[[some "3", some "Cara", some "30"]], [["3", "Cara", "30"]],
           [(3, ["2", "Bob", "25"])], 0⟩ ∧
    reconcile (applyOutcome rawScenA
        ⟨[[some "3", some "Cara", some "30"]], [["3", "Cara", "30"]],
         [(3, ["2", "Bob", "25"])], 0⟩) dfScenA "ID" ["ID", "Name", "Score"] =
      .ok ⟨[], [], [], dfScenA.rows.length⟩ := by
  have h0 : reconcile rawScenA dfScenA "ID" ["ID", "Name", "Score"] =
      .ok ⟨[[some "3", some "Cara", some "30"]], [["3", "Cara", "30"]],
           [(3, ["2", "Bob", "25"])], 0⟩ := rfl
  exact ⟨h0, c8_idempotence_amended h0 (by decide) (by decide) (by decide)
    (by decide)⟩

end Updaterest
